import Mathlib

/-!
Verification of the grid model and A* pathfinding engine of the
Interactive_Path_Finder repository.

The definitions below are a shallow embedding of `gridmodel.h`/the grid model
implementation and of `pathfinder.h`/`pathfinder.cpp`:

* `CellType`, `GridState`, `cellState`, `setCellState`, `updateSpecialPosition`,
  `clearGrid`, `initialGrid` embed the `GridModel` class.  Coordinates are
  `Nat` (the C++ uses `uint8_t`; all values that occur are below 256 and no
  arithmetic wraps).  The C++ `throw std::out_of_range` is embedded as an
  `Option` result (`none` = the exception propagates, no state change).
* `getCost`, `heuristic`, `Node`, `popMin`, `relaxDir`, `relaxNeighbors`,
  `searchLoop`, `collectPath`, `reconstructPath`, `initSearch`, `findPath`
  embed the `Pathfinder` class.  All C++ `double` arithmetic here is exact
  (every value is a multiple of 0.5 well inside the exactly-representable
  range), so it is embedded as `ℚ`.  The C++ `std::priority_queue` pops some
  minimal-`f` entry (tie order implementation-defined); `popMin` is the
  leftmost-minimal instance of that contract.  The unbounded C++ loops are
  embedded with fuel; the fuel bounds are proved sufficient below
  (`searchLoop_fuel_isSome`), so the embedding computes exactly what the C++
  loops compute.
-/

namespace PathViz

inductive CellType where
  | Normal
  | Wall
  | Rough
  | Boost
  | Start
  | Goal
deriving DecidableEq, Repr

/-- The observable state of a `GridModel` object: the fixed dimensions, the
cell contents (`m_grid`), and the tracked special positions `m_start` and
`m_goal` (the sentinel `(101, 101)` means "unset", as in the source). -/
structure GridState where
  rows : Nat
  cols : Nat
  grid : Nat → Nat → CellType
  start : Nat × Nat
  goal : Nat × Nat

/-- Pointwise update of the 2-D cell array (`m_grid[r][c] = t`). -/
def upd2 (f : Nat → Nat → CellType) (r c : Nat) (t : CellType) : Nat → Nat → CellType :=
  fun i j => if i = r ∧ j = c then t else f i j

/-- Embeds `GridModel::cellState`: validates coordinates (throwing, i.e. `none`, when
`row >= m_rows || col >= m_cols`) and returns the cell contents. -/
def cellState (s : GridState) (r c : Nat) : Option CellType :=
  if r < s.rows ∧ c < s.cols then some (s.grid r c) else none

/-- Embeds `GridModel::updateSpecialPosition`: clears the previous special cell to
`Normal` when the old position is not exactly the sentinel `(101, 101)`, then
writes the new special cell and records the new position. -/
def updateSpecialPosition (gr : Nat → Nat → CellType) (pos : Nat × Nat)
    (newRow newCol : Nat) (t : CellType) : (Nat → Nat → CellType) × (Nat × Nat) :=
  let cleared := if pos.1 = 101 ∧ pos.2 = 101 then gr else upd2 gr pos.1 pos.2 .Normal
  (upd2 cleared newRow newCol t, (newRow, newCol))

/-- Embeds `GridModel::setCellState`: validates coordinates, routes `Start`/`Goal`
through `updateSpecialPosition`, and writes every other type directly (note:
the direct branch does not touch `m_start`/`m_goal`). -/
def setCellState (s : GridState) (r c : Nat) (t : CellType) : Option GridState :=
  if r < s.rows ∧ c < s.cols then
    some (if t = .Start then
            let res := updateSpecialPosition s.grid s.start r c t
            { s with grid := res.1, start := res.2 }
          else if t = .Goal then
            let res := updateSpecialPosition s.grid s.goal r c t
            { s with grid := res.1, goal := res.2 }
          else { s with grid := upd2 s.grid r c t })
  else none

/-- Embeds `GridModel::clearGrid`. -/
def clearGrid (s : GridState) : GridState :=
  { s with grid := fun _ _ => .Normal, start := (101, 101), goal := (101, 101) }

/-- A freshly constructed `GridModel(rows, cols)`: all cells `Normal`, both
special positions at the sentinel. -/
def initialGrid (rows cols : Nat) : GridState :=
  { rows := rows, cols := cols, grid := fun _ _ => .Normal
    start := (101, 101), goal := (101, 101) }

/-- One public mutation of the grid model. -/
inductive GridOp where
  | set (r c : Nat) (t : CellType)
  | clear

/-- Applying a mutation; a `setCellState` that throws leaves the state
unchanged (the exception propagates past the mutation). -/
def applyOp (s : GridState) : GridOp → GridState
  | .set r c t => (setCellState s r c t).getD s
  | .clear => clearGrid s

/-- A sequence of public mutations applied in order. -/
def runOps (s : GridState) (ops : List GridOp) : GridState :=
  ops.foldl applyOp s

/-! ## The pathfinding engine -/

/-- Embeds `Pathfinder::PathResult`. -/
structure PathResult where
  path : List (Nat × Nat)
  totalCost : ℚ
deriving DecidableEq, Repr

/-- Embeds `Pathfinder::getCost`. -/
def getCost : CellType → ℚ
  | .Wall => -1
  | .Rough => 2
  | .Boost => 1/2
  | _ => 1

/-- Embeds `std::abs(a - b)` on promoted `uint8_t` values. -/
def natAbsDiff (a b : Nat) : Nat := max a b - min a b

/-- Embeds `Pathfinder::heuristic`: Manhattan distance to the goal times 0.5. -/
def heuristic (s : GridState) (row col : Nat) : ℚ :=
  ((natAbsDiff row s.goal.1 : ℚ) + (natAbsDiff col s.goal.2 : ℚ)) * (1/2)

/-- Embeds `Pathfinder::Node`. -/
structure Node where
  row : Nat
  col : Nat
  g : ℚ
  f : ℚ
deriving DecidableEq, Repr

def Node.pos (n : Node) : Nat × Nat := (n.row, n.col)

/-- Popping from the min-heap `m_queue`: returns a minimal-`f` entry and the
remaining entries.  The C++ heap's order among equal `f` values is
implementation-defined; this is the leftmost-minimal instance. -/
def popMin : List Node → Option (Node × List Node)
  | [] => none
  | n :: rest =>
    match popMin rest with
    | none => some (n, [])
    | some (m, rest2) => if n.f ≤ m.f then some (n, rest) else some (m, n :: rest2)

/-- The per-call search state: `m_costGrid` (`none` = infinity), `m_visited`,
`m_previous`, and `m_queue`. -/
structure SearchState where
  cost : Nat × Nat → Option ℚ
  visited : Nat × Nat → Bool
  prev : Nat × Nat → Nat × Nat
  queue : List Node

def updC (f : Nat × Nat → Option ℚ) (p : Nat × Nat) (v : ℚ) : Nat × Nat → Option ℚ :=
  fun q => if q = p then some v else f q

def updB (f : Nat × Nat → Bool) (p : Nat × Nat) : Nat × Nat → Bool :=
  fun q => if q = p then true else f q

def updP (f : Nat × Nat → Nat × Nat) (p v : Nat × Nat) : Nat × Nat → Nat × Nat :=
  fun q => if q = p then v else f q

/-- The movement directions `dr`/`dc` from `findPath`, as (delta-row, delta-col)
pairs in source order. -/
def dirs : List (Int × Int) := [(-1, 0), (1, 0), (0, -1), (0, 1)]

/-- The neighbor coordinate computation with the in-loop bounds check
(`nr < 0 || nr >= rowCount() || nc < 0 || nc >= colCount()`). -/
def shift (s : GridState) (p : Nat × Nat) (d : Int × Int) : Option (Nat × Nat) :=
  let nr : Int := (p.1 : Int) + d.1
  let nc : Int := (p.2 : Int) + d.2
  if 0 ≤ nr ∧ nr < (s.rows : Int) ∧ 0 ≤ nc ∧ nc < (s.cols : Int) then
    some (nr.toNat, nc.toNat)
  else none

/-- Embeds `newCost < m_costGrid[nr][nc]` where `none` stands for infinity. -/
def ltOpt (x : ℚ) : Option ℚ → Bool
  | none => true
  | some y => decide (x < y)

/-- One iteration of the neighbor loop in `findPath` for a single direction:
bounds check, wall check, relaxation, and push. -/
def relaxDir (s : GridState) (cur : Node) (st : SearchState) (d : Int × Int) : SearchState :=
  match shift s (cur.row, cur.col) d with
  | none => st
  | some np =>
    let w := getCost (s.grid np.1 np.2)
    if w < 0 then st
    else
      let newCost := cur.g + w
      if ltOpt newCost (st.cost np) then
        { cost := updC st.cost np newCost
          visited := st.visited
          prev := updP st.prev np (cur.row, cur.col)
          queue := st.queue ++ [⟨np.1, np.2, newCost, newCost + heuristic s np.1 np.2⟩] }
      else st

/-- The full neighbor loop over the four directions. -/
def relaxNeighbors (s : GridState) (cur : Node) (st : SearchState) : SearchState :=
  dirs.foldl (relaxDir s cur) st

/-- The backtracking loop of `Pathfinder::reconstructPath` before the final
reverse: collects coordinates while `current.first != 101`.  The C++ loop is
unbounded; the fuel passed below always suffices (proved later). -/
def collectPath (prev : Nat × Nat → Nat × Nat) : Nat → Nat × Nat → List (Nat × Nat)
  | 0, _ => []
  | fuel + 1, cur => if cur.1 = 101 then [] else cur :: collectPath prev fuel (prev cur)

/-- Embeds `Pathfinder::reconstructPath`. -/
def reconstructPath (prev : Nat × Nat → Nat × Nat) (fuel : Nat) (goalp : Nat × Nat) :
    List (Nat × Nat) :=
  (collectPath prev fuel goalp).reverse

/-- The main `while (!m_queue.empty())` loop of `Pathfinder::findPath`:
pop a minimal-`f` entry, lazily discard already-visited entries, mark visited,
return on goal, otherwise relax the four neighbors.  `none` = out of fuel
(never happens for the fuel used by `findPath`, proved later). -/
def searchLoop (s : GridState) : Nat → SearchState → Option PathResult
  | 0, _ => none
  | fuel + 1, st =>
    match popMin st.queue with
    | none => some ⟨[], -1⟩
    | some (cur, rest) =>
      if st.visited (cur.row, cur.col) then
        searchLoop s fuel { st with queue := rest }
      else
        let st2 : SearchState :=
          { st with queue := rest, visited := updB st.visited (cur.row, cur.col) }
        if cur.row = s.goal.1 ∧ cur.col = s.goal.2 then
          some ⟨reconstructPath st2.prev (s.rows * s.cols + 1) s.goal,
                (st2.cost s.goal).getD 0⟩
        else
          searchLoop s fuel (relaxNeighbors s cur st2)

/-- Embeds `Pathfinder::initialize` plus the two lines that seed the start cell:
cost table infinity except 0 at start, nothing visited, all parents at the
sentinel, the start node on the queue. -/
def initSearch (s : GridState) : SearchState :=
  { cost := fun p => if p = s.start then some 0 else none
    visited := fun _ => false
    prev := fun _ => (101, 101)
    queue := [⟨s.start.1, s.start.2, 0, heuristic s s.start.1 s.start.2⟩] }

/-- Fuel that always suffices for the main loop (proved later): every
iteration pops one entry, and at most `1 + 4 * rows * cols` entries are ever
pushed. -/
def searchFuel (s : GridState) : Nat := 4 * (s.rows * s.cols) + 2

/-- Embeds `Pathfinder::findPath`.  The unset test compares only the row component
against 101, and `return {}` value-initializes the result
(empty path, `totalCost = 0.0`). -/
def findPath (s : GridState) : PathResult :=
  if s.start.1 = 101 ∨ s.goal.1 = 101 then ⟨[], 0⟩
  else (searchLoop s (searchFuel s) (initSearch s)).getD ⟨[], 0⟩

/-! ## Specification-side notions used by the claims -/

/-- An in-bounds coordinate. -/
def inBounds (s : GridState) (p : Nat × Nat) : Prop := p.1 < s.rows ∧ p.2 < s.cols

instance (s : GridState) (p : Nat × Nat) : Decidable (inBounds s p) := by
  unfold inBounds; exact inferInstance

/-- One legal move of the search: to an in-bounds four-neighbor that is not a
wall (the step's destination determines its cost). -/
def stepOK (s : GridState) (p q : Nat × Nat) : Prop :=
  (∃ d ∈ dirs, shift s p d = some q) ∧ s.grid q.1 q.2 ≠ .Wall

/-- The cost of a step, keyed by the destination cell's type. -/
def stepCost (s : GridState) (q : Nat × Nat) : ℚ := getCost (s.grid q.1 q.2)

/-- Predicate `PathTo s p c`: there is a four-directionally connected walk from the
grid's start to `p` whose step costs (each keyed by the destination cell) sum
to `c`. -/
inductive PathTo (s : GridState) : Nat × Nat → ℚ → Prop where
  | nil : PathTo s s.start 0
  | cons {p q c} : PathTo s p c → stepOK s p q → PathTo s q (c + stepCost s q)

/-- The sum `Σ stepCost(p_i)` for `i = 1..n` over a path `p_0, …, p_n`. -/
def pathCostSum (s : GridState) (l : List (Nat × Nat)) : ℚ :=
  (l.tail.map (stepCost s)).sum

/-- The data-model invariant that does hold for reachable grid states whose
dimensions stay below the sentinel value: dimensions fixed, tracked positions
in bounds or the sentinel, and every `Start`/`Goal` cell sits at the
corresponding tracked position.  (The converse — a tracked position always
holding its special cell — is false; see the counterexamples.) -/
def TrackInv (s : GridState) : Prop :=
  (s.start = (101, 101) ∨ inBounds s s.start) ∧
  (s.goal = (101, 101) ∨ inBounds s s.goal) ∧
  (∀ p : Nat × Nat, inBounds s p → s.grid p.1 p.2 = .Start → p = s.start) ∧
  (∀ p : Nat × Nat, inBounds s p → s.grid p.1 p.2 = .Goal → p = s.goal)

theorem applyOp_rows (s : GridState) (op : GridOp) : (applyOp s op).rows = s.rows := by
  cases op with
  | clear => rfl
  | set r c t =>
    unfold applyOp setCellState
    by_cases h : r < s.rows ∧ c < s.cols
    · by_cases h1 : t = .Start <;> by_cases h2 : t = .Goal <;>
        simp [h, h1, h2, updateSpecialPosition]
    · simp [h]

theorem applyOp_cols (s : GridState) (op : GridOp) : (applyOp s op).cols = s.cols := by
  cases op with
  | clear => rfl
  | set r c t =>
    unfold applyOp setCellState
    by_cases h : r < s.rows ∧ c < s.cols
    · by_cases h1 : t = .Start <;> by_cases h2 : t = .Goal <;>
        simp [h, h1, h2, updateSpecialPosition]
    · simp [h]

theorem upd2_apply (f : Nat → Nat → CellType) (r c : Nat) (t : CellType) (i j : Nat) :
    upd2 f r c t i j = if i = r ∧ j = c then t else f i j := rfl

theorem usp_apply (gr : Nat → Nat → CellType) (pos : Nat × Nat) (nr nc : Nat)
    (t : CellType) (i j : Nat) :
    (updateSpecialPosition gr pos nr nc t).1 i j =
      if i = nr ∧ j = nc then t
      else if pos.1 = 101 ∧ pos.2 = 101 then gr i j
      else if i = pos.1 ∧ j = pos.2 then .Normal
      else gr i j := by
  unfold updateSpecialPosition
  by_cases h1 : i = nr ∧ j = nc <;> by_cases h2 : pos.1 = 101 ∧ pos.2 = 101 <;>
    simp [upd2, h1, h2]

theorem trackInv_applyOp (s : GridState) (op : GridOp)
    (hr : s.rows ≤ 101) (h : TrackInv s) : TrackInv (applyOp s op) := by
  obtain ⟨hstart, hgoal, hS, hG⟩ := h
  cases op with
  | clear =>
    refine ⟨Or.inl rfl, Or.inl rfl, ?_, ?_⟩ <;> intro p hp hcell <;>
      simp [applyOp, clearGrid] at hcell
  | set r c t =>
    by_cases hin : r < s.rows ∧ c < s.cols
    · by_cases h1 : t = .Start
      · subst h1
        have hres : applyOp s (.set r c .Start) =
            { s with grid := (updateSpecialPosition s.grid s.start r c .Start).1
                     start := (r, c) } := by
          simp [applyOp, setCellState, hin, updateSpecialPosition]
        rw [hres]
        refine ⟨Or.inr ⟨hin.1, hin.2⟩, ?_, ?_, ?_⟩
        · rcases hgoal with hg | hg
          · exact Or.inl hg
          · exact Or.inr hg
        · intro p hp hcell
          have hp2 : inBounds s p := ⟨hp.1, hp.2⟩
          dsimp only at hcell ⊢
          rw [usp_apply] at hcell
          split_ifs at hcell with hpc hsent hps
          · exact Prod.ext hpc.1 hpc.2
          · have heq := hS p hp2 hcell
            have hpb : p.1 < s.rows := hp2.1
            rw [heq] at hpb
            exact absurd rfl (by omega : s.start.1 ≠ s.start.1)
          · have heq := hS p hp2 hcell
            exact absurd ⟨congrArg Prod.fst heq, congrArg Prod.snd heq⟩ hps
        · intro p hp hcell
          have hp2 : inBounds s p := ⟨hp.1, hp.2⟩
          dsimp only at hcell ⊢
          rw [usp_apply] at hcell
          split_ifs at hcell with hpc hsent hps
          all_goals exact hG p hp2 hcell
      · by_cases h2 : t = .Goal
        · subst h2
          have hres : applyOp s (.set r c .Goal) =
              { s with grid := (updateSpecialPosition s.grid s.goal r c .Goal).1
                       goal := (r, c) } := by
            simp [applyOp, setCellState, hin, updateSpecialPosition]
          rw [hres]
          refine ⟨?_, Or.inr ⟨hin.1, hin.2⟩, ?_, ?_⟩
          · rcases hstart with hg | hg
            · exact Or.inl hg
            · exact Or.inr hg
          · intro p hp hcell
            have hp2 : inBounds s p := ⟨hp.1, hp.2⟩
            dsimp only at hcell ⊢
            rw [usp_apply] at hcell
            split_ifs at hcell with hpc hsent hps
            all_goals exact hS p hp2 hcell
          · intro p hp hcell
            have hp2 : inBounds s p := ⟨hp.1, hp.2⟩
            dsimp only at hcell ⊢
            rw [usp_apply] at hcell
            split_ifs at hcell with hpc hsent hps
            · exact Prod.ext hpc.1 hpc.2
            · have heq := hG p hp2 hcell
              have hpb : p.1 < s.rows := hp2.1
              rw [heq] at hpb
              exact absurd rfl (by omega : s.goal.1 ≠ s.goal.1)
            · have heq := hG p hp2 hcell
              exact absurd ⟨congrArg Prod.fst heq, congrArg Prod.snd heq⟩ hps
        · have hres : applyOp s (.set r c t) = { s with grid := upd2 s.grid r c t } := by
            simp [applyOp, setCellState, hin, h1, h2]
          rw [hres]
          refine ⟨hstart, hgoal, ?_, ?_⟩ <;> intro p hp hcell <;>
            dsimp only at hcell ⊢ <;>
            rw [upd2_apply] at hcell <;>
            have hp2 : inBounds s p := ⟨hp.1, hp.2⟩
          · split_ifs at hcell with hpc
            · exact absurd hcell.symm (Ne.symm h1)
            · exact hS p hp2 hcell
          · split_ifs at hcell with hpc
            · exact absurd hcell.symm (Ne.symm h2)
            · exact hG p hp2 hcell
    · have hnone : setCellState s r c t = none := by
        unfold setCellState; rw [if_neg hin]
      simp only [applyOp, hnone, Option.getD_none]
      exact ⟨hstart, hgoal, hS, hG⟩

theorem trackInv_runOps (s : GridState) (ops : List GridOp)
    (hr : s.rows ≤ 101) (h : TrackInv s) : TrackInv (runOps s ops) := by
  induction ops generalizing s with
  | nil => exact h
  | cons op ops ih =>
    have h1 : (applyOp s op).rows = s.rows := applyOp_rows s op
    exact ih (applyOp s op) (by rw [h1]; exact hr) (trackInv_applyOp s op hr h)

theorem trackInv_initialGrid (rows cols : Nat) :
    TrackInv (initialGrid rows cols) := by
  refine ⟨Or.inl rfl, Or.inl rfl, ?_, ?_⟩ <;> intro p hp hcell <;>
    simp [initialGrid] at hcell

end PathViz

namespace PathViz

/-! ## Claims about the grid model and the unset-input path -/

/-- Claim C1, counterexample: on a freshly constructed grid both positions are
absent, yet `findPath()` returns `totalCost = 0` (the value-initialized
`PathResult` of `return {}`), not the claimed `-1`. -/
theorem findPath_unset_counterexample :
    (initialGrid 3 3).start = (101, 101) ∧ (initialGrid 3 3).goal = (101, 101) ∧
    findPath (initialGrid 3 3) = ⟨[], 0⟩ ∧
    (findPath (initialGrid 3 3)).totalCost ≠ -1 := by
  refine ⟨rfl, rfl, rfl, ?_⟩
  decide

/-- Claim C1, amended: if either tracked position is absent (the sentinel
`(101, 101)`), `findPath()` performs no search and returns the
value-initialized result: empty path and `totalCost = 0`. -/
theorem findPath_unset_returns_zero (s : GridState)
    (h : s.start = (101, 101) ∨ s.goal = (101, 101)) :
    findPath s = ⟨[], 0⟩ := by
  unfold findPath
  rcases h with h | h <;> rw [if_pos] <;> simp [h]

theorem findPath_unset_returns_zero_witness :
    findPath (initialGrid 5 7) = ⟨[], 0⟩ :=
  findPath_unset_returns_zero (initialGrid 5 7) (Or.inl rfl)

/-- Claim C2, counterexample: start at `(0,0)`, then overwrite that cell with
`Normal`.  The tracked start position remains `(0,0)` (present), yet no cell
of the grid holds type `Start` — the tracked position and the grid contents
disagree, contradicting the claimed invariant. -/
theorem gridModel_tracking_counterexample :
    (runOps (initialGrid 2 2) [.set 0 0 .Start, .set 0 0 .Normal]).start = (0, 0) ∧
    (runOps (initialGrid 2 2) [.set 0 0 .Start, .set 0 0 .Normal]).start ≠ (101, 101) ∧
    (∀ r < 2, ∀ c < 2,
      (runOps (initialGrid 2 2) [.set 0 0 .Start, .set 0 0 .Normal]).grid r c ≠ .Start) := by
  refine ⟨rfl, by decide, by decide⟩

/-- Claim C2, amended: from a freshly constructed grid with at most 101 rows
and columns, after any sequence of `setCellState`/`clearGrid` calls, at most
one cell has type `Start` and at most one has type `Goal`, and every
`Start`/`Goal` cell sits at the corresponding tracked position.  (The claimed
converse — the tracked position being absent exactly when no cell has the
type — is false: overwriting a special cell with a non-special type leaves
the tracked position dangling, and on grids with more than 101 rows even
uniqueness fails because a real position can collide with the sentinel.) -/
theorem gridModel_unique_special_cells (rows cols : Nat) (ops : List GridOp)
    (hr : rows ≤ 101) :
    (∀ p q : Nat × Nat, inBounds (runOps (initialGrid rows cols) ops) p →
      inBounds (runOps (initialGrid rows cols) ops) q →
      (runOps (initialGrid rows cols) ops).grid p.1 p.2 = .Start →
      (runOps (initialGrid rows cols) ops).grid q.1 q.2 = .Start → p = q) ∧
    (∀ p q : Nat × Nat, inBounds (runOps (initialGrid rows cols) ops) p →
      inBounds (runOps (initialGrid rows cols) ops) q →
      (runOps (initialGrid rows cols) ops).grid p.1 p.2 = .Goal →
      (runOps (initialGrid rows cols) ops).grid q.1 q.2 = .Goal → p = q) ∧
    (∀ p : Nat × Nat, inBounds (runOps (initialGrid rows cols) ops) p →
      (runOps (initialGrid rows cols) ops).grid p.1 p.2 = .Start →
      p = (runOps (initialGrid rows cols) ops).start) ∧
    (∀ p : Nat × Nat, inBounds (runOps (initialGrid rows cols) ops) p →
      (runOps (initialGrid rows cols) ops).grid p.1 p.2 = .Goal →
      p = (runOps (initialGrid rows cols) ops).goal) := by
  have h := trackInv_runOps (initialGrid rows cols) ops hr (trackInv_initialGrid rows cols)
  obtain ⟨h1, h2, hS, hG⟩ := h
  refine ⟨?_, ?_, hS, hG⟩
  · intro p q hp hq hps hqs
    rw [hS p hp hps, hS q hq hqs]
  · intro p q hp hq hps hqs
    rw [hG p hp hps, hG q hq hqs]

theorem gridModel_unique_special_cells_witness :
    (∀ p q : Nat × Nat, inBounds (runOps (initialGrid 4 4) [.set 1 2 .Start]) p →
      inBounds (runOps (initialGrid 4 4) [.set 1 2 .Start]) q →
      (runOps (initialGrid 4 4) [.set 1 2 .Start]).grid p.1 p.2 = .Start →
      (runOps (initialGrid 4 4) [.set 1 2 .Start]).grid q.1 q.2 = .Start → p = q) ∧
    (∀ p q : Nat × Nat, inBounds (runOps (initialGrid 4 4) [.set 1 2 .Start]) p →
      inBounds (runOps (initialGrid 4 4) [.set 1 2 .Start]) q →
      (runOps (initialGrid 4 4) [.set 1 2 .Start]).grid p.1 p.2 = .Goal →
      (runOps (initialGrid 4 4) [.set 1 2 .Start]).grid q.1 q.2 = .Goal → p = q) ∧
    (∀ p : Nat × Nat, inBounds (runOps (initialGrid 4 4) [.set 1 2 .Start]) p →
      (runOps (initialGrid 4 4) [.set 1 2 .Start]).grid p.1 p.2 = .Start →
      p = (runOps (initialGrid 4 4) [.set 1 2 .Start]).start) ∧
    (∀ p : Nat × Nat, inBounds (runOps (initialGrid 4 4) [.set 1 2 .Start]) p →
      (runOps (initialGrid 4 4) [.set 1 2 .Start]).grid p.1 p.2 = .Goal →
      p = (runOps (initialGrid 4 4) [.set 1 2 .Start]).goal) :=
  gridModel_unique_special_cells 4 4 [.set 1 2 .Start] (by decide)

/-- Claim C3, counterexample: a cell holding `Start` is overwritten with
`Rough`; the cell changes but the tracked start position is NOT cleared to
absent — it still reads `(0, 0)`. -/
theorem setCellState_no_clear_counterexample :
    (runOps (initialGrid 1 1) [.set 0 0 .Start, .set 0 0 .Rough]).grid 0 0 = .Rough ∧
    (runOps (initialGrid 1 1) [.set 0 0 .Start, .set 0 0 .Rough]).start = (0, 0) ∧
    (runOps (initialGrid 1 1) [.set 0 0 .Start, .set 0 0 .Rough]).start ≠ (101, 101) := by
  refine ⟨rfl, rfl, by decide⟩

/-- Claim C3, amended: setting a non-special type (`Normal`, `Wall`, `Rough`
or `Boost`) at an in-bounds coordinate sets that cell to the type, leaves all
other cells unchanged, and leaves BOTH tracked positions exactly as they
were — in particular a tracked start/goal position pointing at the
overwritten cell is not cleared to absent. -/
theorem setCellState_nonspecial_keeps_tracked (s : GridState) (r c : Nat) (t : CellType)
    (hr : r < s.rows) (hc : c < s.cols) (h1 : t ≠ .Start) (h2 : t ≠ .Goal) :
    ∃ s2, setCellState s r c t = some s2 ∧ s2.grid r c = t ∧
      s2.start = s.start ∧ s2.goal = s.goal ∧
      (∀ i j : Nat, ¬(i = r ∧ j = c) → s2.grid i j = s.grid i j) := by
  refine ⟨{ s with grid := upd2 s.grid r c t }, ?_, ?_, rfl, rfl, ?_⟩
  · simp [setCellState, hr, hc, h1, h2]
  · simp [upd2]
  · intro i j hij
    simp only [upd2]
    rw [if_neg hij]

theorem setCellState_nonspecial_keeps_tracked_witness :
    ∃ s2, setCellState (runOps (initialGrid 2 2) [.set 0 1 .Start]) 0 1 .Wall = some s2 ∧
      s2.grid 0 1 = .Wall ∧
      s2.start = (runOps (initialGrid 2 2) [.set 0 1 .Start]).start ∧
      s2.goal = (runOps (initialGrid 2 2) [.set 0 1 .Start]).goal ∧
      (∀ i j : Nat, ¬(i = 0 ∧ j = 1) →
        s2.grid i j = (runOps (initialGrid 2 2) [.set 0 1 .Start]).grid i j) :=
  setCellState_nonspecial_keeps_tracked (runOps (initialGrid 2 2) [.set 0 1 .Start])
    0 1 .Wall (by decide) (by decide) (by decide) (by decide)

/-- Claim C8: `cellState` and `setCellState` fail (the `std::out_of_range`
exception, embedded as `none`) exactly when `row >= rows` or `col >= cols`;
a failing `setCellState` leaves the whole state, tracked positions included,
unchanged; and an in-bounds read returns exactly the addressed cell (no
clamping). -/
theorem cellState_bounds_exact (s : GridState) (r c : Nat) (t : CellType) :
    (cellState s r c = none ↔ s.rows ≤ r ∨ s.cols ≤ c) ∧
    (setCellState s r c t = none ↔ s.rows ≤ r ∨ s.cols ≤ c) ∧
    (s.rows ≤ r ∨ s.cols ≤ c → applyOp s (.set r c t) = s) ∧
    (r < s.rows → c < s.cols → cellState s r c = some (s.grid r c)) := by
  have hiff : ¬(r < s.rows ∧ c < s.cols) ↔ s.rows ≤ r ∨ s.cols ≤ c := by omega
  refine ⟨?_, ?_, ?_, ?_⟩
  · unfold cellState
    by_cases h : r < s.rows ∧ c < s.cols
    · simp only [h, if_true]
      simp only [iff_iff_implies_and_implies]
      constructor
      · intro hx; cases hx
      · intro hx; omega
    · simp [h, hiff.mp h]
  · unfold setCellState
    by_cases h : r < s.rows ∧ c < s.cols
    · simp only [h, if_true]
      simp only [iff_iff_implies_and_implies]
      constructor
      · intro hx; cases hx
      · intro hx; omega
    · simp [h, hiff.mp h]
  · intro h
    have hnone : setCellState s r c t = none := by
      unfold setCellState
      rw [if_neg (by omega)]
    simp [applyOp, hnone]
  · intro h1 h2
    unfold cellState
    rw [if_pos ⟨h1, h2⟩]

theorem cellState_bounds_exact_witness :
    (cellState (initialGrid 2 2) 1 1 = some ((initialGrid 2 2).grid 1 1)) ∧
    (applyOp (initialGrid 2 2) (.set 5 0 .Wall) = initialGrid 2 2) :=
  ⟨(cellState_bounds_exact (initialGrid 2 2) 1 1 .Wall).2.2.2 (by decide) (by decide),
   (cellState_bounds_exact (initialGrid 2 2) 5 0 .Wall).2.2.1 (by decide)⟩

/-- Claim C10: `findPath()` decides that start or goal is "absent" by testing
only the ROW component of each tracked position against 101: whenever either
tracked row equals 101 (even for a genuinely set position on a tall grid) it
returns the no-search result, and whenever both rows differ from 101 (even if
a column equals 101) the search is performed. -/
theorem findPath_row_sentinel_check (s : GridState) :
    (s.start.1 = 101 ∨ s.goal.1 = 101 → findPath s = ⟨[], 0⟩) ∧
    (s.start.1 ≠ 101 → s.goal.1 ≠ 101 →
      findPath s = (searchLoop s (searchFuel s) (initSearch s)).getD ⟨[], 0⟩) := by
  constructor
  · intro h
    unfold findPath
    rw [if_pos h]
  · intro h1 h2
    unfold findPath
    rw [if_neg (by tauto)]

theorem findPath_row_sentinel_check_witness :
    findPath (runOps (initialGrid 120 10) [.set 101 3 .Start, .set 0 0 .Goal]) = ⟨[], 0⟩ ∧
    (runOps (initialGrid 120 10) [.set 101 3 .Start, .set 0 0 .Goal]).start = (101, 3) :=
  ⟨(findPath_row_sentinel_check
      (runOps (initialGrid 120 10) [.set 101 3 .Start, .set 0 0 .Goal])).1 (Or.inl rfl),
   rfl⟩

end PathViz

namespace PathViz

/-! ## Basic facts about the priority queue model -/

theorem popMin_none_iff (l : List Node) : popMin l = none ↔ l = [] := by
  cases l with
  | nil => simp [popMin]
  | cons n rest =>
    simp only [popMin]
    cases h : popMin rest with
    | none => simp
    | some x =>
      obtain ⟨m, rest2⟩ := x
      by_cases hf : n.f ≤ m.f <;> simp [hf]

theorem popMin_perm : ∀ {l : List Node} {m : Node} {rest : List Node},
    popMin l = some (m, rest) → l.Perm (m :: rest) := by
  intro l
  induction l with
  | nil => intro m rest h; cases h
  | cons n tail ih =>
    intro m rest h
    simp only [popMin] at h
    cases htail : popMin tail with
    | none =>
      rw [htail] at h
      have hnil : tail = [] := (popMin_none_iff tail).mp htail
      subst hnil
      cases h
      exact List.Perm.refl _
    | some x =>
      obtain ⟨m2, rest2⟩ := x
      rw [htail] at h
      dsimp only at h
      by_cases hf : n.f ≤ m2.f
      · rw [if_pos hf] at h
        cases h
        exact List.Perm.refl _
      · rw [if_neg hf] at h
        cases h
        have hperm := ih htail
        exact (hperm.cons n).trans (List.Perm.swap _ _ _)

theorem popMin_min : ∀ {l : List Node} {m : Node} {rest : List Node},
    popMin l = some (m, rest) → ∀ x ∈ l, m.f ≤ x.f := by
  intro l
  induction l with
  | nil => intro m rest h; cases h
  | cons n tail ih =>
    intro m rest h x hx
    simp only [popMin] at h
    cases htail : popMin tail with
    | none =>
      rw [htail] at h
      cases h
      have hnil : tail = [] := (popMin_none_iff tail).mp htail
      subst hnil
      rcases List.mem_singleton.mp hx with rfl
      exact le_refl _
    | some y =>
      obtain ⟨m2, rest2⟩ := y
      rw [htail] at h
      dsimp only at h
      by_cases hf : n.f ≤ m2.f
      · rw [if_pos hf] at h
        cases h
        rcases List.mem_cons.mp hx with rfl | hx2
        · exact le_refl _
        · exact le_trans hf (ih htail x hx2)
      · rw [if_neg hf] at h
        cases h
        rcases List.mem_cons.mp hx with rfl | hx2
        · exact le_of_lt (lt_of_not_le hf)
        · exact ih htail x hx2

/-! ## Shape facts about one relaxation step -/

theorem getCost_ge_half {t : CellType} (h : t ≠ .Wall) : 1/2 ≤ getCost t := by
  cases t
  · norm_num [getCost]
  · exact absurd rfl h
  · norm_num [getCost]
  · norm_num [getCost]
  · norm_num [getCost]
  · norm_num [getCost]

theorem getCost_neg_iff (t : CellType) : getCost t < 0 ↔ t = .Wall := by
  cases t <;> norm_num [getCost] <;> decide

theorem relaxDir_eq (s : GridState) (cur : Node) (st : SearchState) (d : Int × Int) :
    relaxDir s cur st d = st ∨
    ∃ np, shift s (cur.row, cur.col) d = some np ∧
      s.grid np.1 np.2 ≠ .Wall ∧
      ltOpt (cur.g + stepCost s np) (st.cost np) = true ∧
      relaxDir s cur st d =
        { cost := updC st.cost np (cur.g + stepCost s np)
          visited := st.visited
          prev := updP st.prev np (cur.row, cur.col)
          queue := st.queue ++ [⟨np.1, np.2, cur.g + stepCost s np,
                     cur.g + stepCost s np + heuristic s np.1 np.2⟩] } := by
  unfold relaxDir
  cases h : shift s (cur.row, cur.col) d with
  | none => exact Or.inl rfl
  | some np =>
    dsimp only
    by_cases hw : getCost (s.grid np.1 np.2) < 0
    · rw [if_pos hw]; exact Or.inl rfl
    · rw [if_neg hw]
      by_cases hlt : ltOpt (cur.g + getCost (s.grid np.1 np.2)) (st.cost np) = true
      · right
        refine ⟨np, rfl, fun hwall => hw ((getCost_neg_iff _).mpr hwall), hlt, ?_⟩
        rw [if_pos hlt]
        rfl
      · rw [if_neg hlt]
        exact Or.inl rfl

theorem relaxDir_visited (s : GridState) (cur : Node) (st : SearchState) (d : Int × Int) :
    (relaxDir s cur st d).visited = st.visited := by
  rcases relaxDir_eq s cur st d with h | ⟨np, _, _, _, h⟩ <;> rw [h]

theorem relaxNeighbors_visited (s : GridState) (cur : Node) (st : SearchState) :
    (relaxNeighbors s cur st).visited = st.visited := by
  show (List.foldl (relaxDir s cur) st dirs).visited = st.visited
  simp only [dirs, List.foldl]
  rw [relaxDir_visited, relaxDir_visited, relaxDir_visited, relaxDir_visited]

theorem shift_bounds {s : GridState} {p : Nat × Nat} {d : Int × Int} {np : Nat × Nat}
    (h : shift s p d = some np) : np.1 < s.rows ∧ np.2 < s.cols := by
  simp only [shift] at h
  split_ifs at h with hc
  cases h
  constructor <;> simp <;> omega

theorem relaxDir_queue (s : GridState) (cur : Node) (st : SearchState) (d : Int × Int) :
    ∃ l, (relaxDir s cur st d).queue = st.queue ++ l ∧ l.length ≤ 1 ∧
      ∀ n ∈ l, n.row < s.rows ∧ n.col < s.cols := by
  rcases relaxDir_eq s cur st d with h | ⟨np, hsh, hnw, hlt, h⟩
  · exact ⟨[], by rw [h, List.append_nil], by simp, by simp⟩
  · refine ⟨[⟨np.1, np.2, cur.g + stepCost s np,
      cur.g + stepCost s np + heuristic s np.1 np.2⟩], by rw [h], by simp, ?_⟩
    intro n hn
    rcases List.mem_singleton.mp hn with rfl
    exact shift_bounds hsh

theorem relaxNeighbors_queue (s : GridState) (cur : Node) (st : SearchState) :
    ∃ l, (relaxNeighbors s cur st).queue = st.queue ++ l ∧ l.length ≤ 4 ∧
      ∀ n ∈ l, n.row < s.rows ∧ n.col < s.cols := by
  show ∃ l, (List.foldl (relaxDir s cur) st dirs).queue = st.queue ++ l ∧ _ ∧ _
  simp only [dirs, List.foldl]
  obtain ⟨l1, h1, hl1, hb1⟩ := relaxDir_queue s cur st (-1, 0)
  obtain ⟨l2, h2, hl2, hb2⟩ := relaxDir_queue s cur (relaxDir s cur st (-1, 0)) (1, 0)
  obtain ⟨l3, h3, hl3, hb3⟩ :=
    relaxDir_queue s cur (relaxDir s cur (relaxDir s cur st (-1, 0)) (1, 0)) (0, -1)
  obtain ⟨l4, h4, hl4, hb4⟩ :=
    relaxDir_queue s cur
      (relaxDir s cur (relaxDir s cur (relaxDir s cur st (-1, 0)) (1, 0)) (0, -1)) (0, 1)
  refine ⟨l1 ++ l2 ++ l3 ++ l4, ?_, ?_, ?_⟩
  · rw [h4, h3, h2, h1]
    simp [List.append_assoc]
  · simp only [List.length_append]
    omega
  · intro n hn
    simp only [List.mem_append] at hn
    rcases hn with ((hn | hn) | hn) | hn
    · exact hb1 n hn
    · exact hb2 n hn
    · exact hb3 n hn
    · exact hb4 n hn

/-! ## Termination of the main loop -/

/-- Number of in-bounds cells not yet visited. -/
def unvisitedF (s : GridState) (vis : Nat × Nat → Bool) : Nat :=
  ((Finset.range s.rows ×ˢ Finset.range s.cols).filter (fun p => vis p = false)).card

theorem unvisitedF_le (s : GridState) (vis : Nat × Nat → Bool) :
    unvisitedF s vis ≤ s.rows * s.cols := by
  calc unvisitedF s vis ≤ (Finset.range s.rows ×ˢ Finset.range s.cols).card :=
        Finset.card_filter_le _ _
    _ = s.rows * s.cols := by rw [Finset.card_product, Finset.card_range, Finset.card_range]

theorem unvisitedF_mark (s : GridState) (vis : Nat × Nat → Bool) (p : Nat × Nat)
    (hb : p.1 < s.rows ∧ p.2 < s.cols) (hnv : vis p = false) :
    unvisitedF s (updB vis p) + 1 = unvisitedF s vis := by
  unfold unvisitedF
  have hmem : p ∈ (Finset.range s.rows ×ˢ Finset.range s.cols).filter
      (fun q => vis q = false) := by
    simp [Finset.mem_filter, Finset.mem_product, hb.1, hb.2, hnv]
  have hset : (Finset.range s.rows ×ˢ Finset.range s.cols).filter
      (fun q => (updB vis p) q = false) =
      ((Finset.range s.rows ×ˢ Finset.range s.cols).filter
        (fun q => vis q = false)).erase p := by
    ext q
    simp only [Finset.mem_filter, Finset.mem_erase, updB]
    constructor
    · rintro ⟨hq, hv⟩
      by_cases hqp : q = p
      · rw [if_pos hqp] at hv; cases hv
      · rw [if_neg hqp] at hv; exact ⟨hqp, hq, hv⟩
    · rintro ⟨hqp, hq, hv⟩
      refine ⟨hq, ?_⟩
      rw [if_neg hqp]; exact hv
  have hpos : 1 ≤ ((Finset.range s.rows ×ˢ Finset.range s.cols).filter
      (fun q => vis q = false)).card := Finset.card_pos.mpr ⟨p, hmem⟩
  rw [hset, Finset.card_erase_of_mem hmem]
  omega

/-- The main loop never runs out of fuel exceeding `queue length + 4 *
unvisited cells`: every iteration pops one entry, and an expansion pushes at
most four entries while visiting one more cell forever. -/
theorem searchLoop_isSome (s : GridState) : ∀ fuel (st : SearchState),
    (∀ n ∈ st.queue, n.row < s.rows ∧ n.col < s.cols) →
    st.queue.length + 4 * unvisitedF s st.visited < fuel →
    (searchLoop s fuel st).isSome = true := by
  intro fuel
  induction fuel with
  | zero => intro st hq hm; omega
  | succ fuel ih =>
    intro st hq hm
    rw [searchLoop]
    cases hpop : popMin st.queue with
    | none => simp
    | some x =>
      obtain ⟨cur, rest⟩ := x
      have hperm := popMin_perm hpop
      have hlen : st.queue.length = rest.length + 1 := by
        have h := hperm.length_eq
        simpa using h
      have hrest : ∀ n ∈ rest, n ∈ st.queue := fun n hn =>
        hperm.mem_iff.mpr (List.mem_cons_of_mem _ hn)
      have hcur : cur ∈ st.queue := hperm.mem_iff.mpr (List.mem_cons_self _ _)
      by_cases hv : st.visited (cur.row, cur.col) = true
      · simp only [hv, if_true]
        exact ih _ (fun n hn => hq n (hrest n hn)) (by dsimp only; omega)
      · rw [Bool.not_eq_true] at hv
        simp only [hv, Bool.false_eq_true, if_false]
        by_cases hg : cur.row = s.goal.1 ∧ cur.col = s.goal.2
        · simp [hg]
        · simp only [hg, if_false]
          apply ih
          · intro n hn
            obtain ⟨l, hql, hll, hlb⟩ := relaxNeighbors_queue s cur
              { st with queue := rest, visited := updB st.visited (cur.row, cur.col) }
            rw [hql] at hn
            rcases List.mem_append.mp hn with hn | hn
            · exact hq n (hrest n hn)
            · exact hlb n hn
          · obtain ⟨l, hql, hll, hlb⟩ := relaxNeighbors_queue s cur
              { st with queue := rest, visited := updB st.visited (cur.row, cur.col) }
            rw [hql, relaxNeighbors_visited]
            have hmark := unvisitedF_mark s st.visited (cur.row, cur.col)
              (hq cur hcur) hv
            simp only [List.length_append]
            omega


/-! ## Geometry of steps and the heuristic -/

theorem natAbsDiff_eq (a b : Nat) : natAbsDiff a b = if a ≤ b then b - a else a - b := by
  unfold natAbsDiff
  rcases Nat.le_total a b with h | h
  · rw [if_pos h, Nat.max_eq_right h, Nat.min_eq_left h]
  · by_cases h2 : a ≤ b
    · rw [if_pos h2, Nat.max_eq_right h2, Nat.min_eq_left h2]
    · rw [if_neg h2, Nat.max_eq_left h, Nat.min_eq_right h]

theorem shift_mem_cases {s : GridState} {p q : Nat × Nat}
    (h : ∃ d ∈ dirs, shift s p d = some q) :
    (q.1 < s.rows ∧ q.2 < s.cols) ∧
    ((q.1 + 1 = p.1 ∧ q.2 = p.2) ∨ (q.1 = p.1 + 1 ∧ q.2 = p.2) ∨
     (q.1 = p.1 ∧ q.2 + 1 = p.2) ∨ (q.1 = p.1 ∧ q.2 = p.2 + 1)) := by
  obtain ⟨d, hd, hsh⟩ := h
  refine ⟨shift_bounds hsh, ?_⟩
  simp only [dirs, List.mem_cons, List.not_mem_nil, or_false] at hd
  simp only [shift] at hsh
  rcases hd with rfl | rfl | rfl | rfl <;>
    · split_ifs at hsh with hc
      cases hsh
      dsimp only
      first
        | exact Or.inl ⟨by omega, by omega⟩
        | exact Or.inr (Or.inl ⟨by omega, by omega⟩)
        | exact Or.inr (Or.inr (Or.inl ⟨by omega, by omega⟩))
        | exact Or.inr (Or.inr (Or.inr ⟨by omega, by omega⟩))

theorem stepOK_intro (s : GridState) (p q : Nat × Nat)
    (hq : q.1 < s.rows ∧ q.2 < s.cols) (hw : s.grid q.1 q.2 ≠ .Wall)
    (hadj : (q.1 + 1 = p.1 ∧ q.2 = p.2) ∨ (q.1 = p.1 + 1 ∧ q.2 = p.2) ∨
            (q.1 = p.1 ∧ q.2 + 1 = p.2) ∨ (q.1 = p.1 ∧ q.2 = p.2 + 1)) :
    stepOK s p q := by
  refine ⟨?_, hw⟩
  obtain ⟨hq1, hq2⟩ := hq
  rcases hadj with ⟨h1, h2⟩ | ⟨h1, h2⟩ | ⟨h1, h2⟩ | ⟨h1, h2⟩
  · refine ⟨(-1, 0), by simp [dirs], ?_⟩
    simp only [shift]
    rw [if_pos (by constructor <;> [omega; constructor <;> [omega; constructor <;> omega]])]
    have e1 : ((p.1 : Int) + (-1 : Int)).toNat = q.1 := by omega
    have e2 : ((p.2 : Int) + (0 : Int)).toNat = q.2 := by omega
    simp only [e1, e2]
  · refine ⟨(1, 0), by simp [dirs], ?_⟩
    simp only [shift]
    rw [if_pos (by constructor <;> [omega; constructor <;> [omega; constructor <;> omega]])]
    have e1 : ((p.1 : Int) + (1 : Int)).toNat = q.1 := by omega
    have e2 : ((p.2 : Int) + (0 : Int)).toNat = q.2 := by omega
    simp only [e1, e2]
  · refine ⟨(0, -1), by simp [dirs], ?_⟩
    simp only [shift]
    rw [if_pos (by constructor <;> [omega; constructor <;> [omega; constructor <;> omega]])]
    have e1 : ((p.1 : Int) + (0 : Int)).toNat = q.1 := by omega
    have e2 : ((p.2 : Int) + (-1 : Int)).toNat = q.2 := by omega
    simp only [e1, e2]
  · refine ⟨(0, 1), by simp [dirs], ?_⟩
    simp only [shift]
    rw [if_pos (by constructor <;> [omega; constructor <;> [omega; constructor <;> omega]])]
    have e1 : ((p.1 : Int) + (0 : Int)).toNat = q.1 := by omega
    have e2 : ((p.2 : Int) + (1 : Int)).toNat = q.2 := by omega
    simp only [e1, e2]

/-- The heuristic value at a coordinate pair. -/
def hvalue (s : GridState) (p : Nat × Nat) : ℚ := heuristic s p.1 p.2

theorem natAbsDiff_cast_le {a b g : Nat} (h : a + 1 = b ∨ b + 1 = a) :
    (natAbsDiff a g : ℚ) ≤ (natAbsDiff b g : ℚ) + 1 := by
  have hn : natAbsDiff a g ≤ natAbsDiff b g + 1 := by
    rw [natAbsDiff_eq, natAbsDiff_eq]
    split_ifs <;> omega
  exact_mod_cast hn

/-- Consistency of the heuristic: one step changes the Manhattan estimate by
at most 0.5, and every step costs at least 0.5 (the `Boost` cost). -/
theorem heuristic_consistent {s : GridState} {p q : Nat × Nat} (h : stepOK s p q) :
    hvalue s p ≤ stepCost s q + hvalue s q := by
  obtain ⟨hmem, hw⟩ := h
  have hc := (shift_mem_cases hmem).2
  have hhalf : (1 : ℚ)/2 ≤ stepCost s q := getCost_ge_half hw
  unfold hvalue heuristic
  have key : (natAbsDiff p.1 s.goal.1 : ℚ) + (natAbsDiff p.2 s.goal.2 : ℚ) ≤
      (natAbsDiff q.1 s.goal.1 : ℚ) + (natAbsDiff q.2 s.goal.2 : ℚ) + 1 := by
    rcases hc with ⟨h1, h2⟩ | ⟨h1, h2⟩ | ⟨h1, h2⟩ | ⟨h1, h2⟩
    · have := natAbsDiff_cast_le (g := s.goal.1) (Or.inr h1)
      rw [h2]
      linarith
    · have := natAbsDiff_cast_le (g := s.goal.1) (Or.inl h1.symm)
      rw [h2]
      linarith
    · have := natAbsDiff_cast_le (g := s.goal.2) (Or.inr h2)
      rw [h1]
      linarith
    · have := natAbsDiff_cast_le (g := s.goal.2) (Or.inl h2.symm)
      rw [h1]
      linarith
  linarith

theorem pathTo_nonneg {s : GridState} {p : Nat × Nat} {c : ℚ} (h : PathTo s p c) :
    0 ≤ c := by
  induction h with
  | nil => exact le_refl 0
  | cons hp hstep ih =>
    have := getCost_ge_half hstep.2
    unfold stepCost
    linarith

theorem pathTo_half_of_ne_start {s : GridState} {p : Nat × Nat} {c : ℚ}
    (h : PathTo s p c) (hne : p ≠ s.start) : 1/2 ≤ c := by
  cases h with
  | nil => exact absurd rfl hne
  | cons hp hstep =>
    have h1 := pathTo_nonneg hp
    have h2 := getCost_ge_half hstep.2
    unfold stepCost
    linarith


/-! ## The A* loop invariant -/

theorem ltOpt_true_some {x y : ℚ} (h : ltOpt x (some y) = true) : x < y := by
  simpa [ltOpt] using h

theorem ltOpt_false_some {x : ℚ} {o : Option ℚ} (h : ltOpt x o = false) :
    ∃ y, o = some y ∧ y ≤ x := by
  cases o with
  | none => simp [ltOpt] at h
  | some y =>
    refine ⟨y, rfl, ?_⟩
    simpa [ltOpt, not_lt] using h

/-- The invariant maintained by every iteration of the main search loop. -/
structure Inv (s : GridState) (st : SearchState) : Prop where
  startCost : st.cost s.start = some 0
  prevStart : st.prev s.start = (101, 101)
  sound : ∀ p c, st.cost p = some c → PathTo s p c
  vis_lb : ∀ p, st.visited p = true →
    ∃ cp, st.cost p = some cp ∧ ∀ c2, PathTo s p c2 → cp ≤ c2
  relaxed : ∀ p q, st.visited p = true → stepOK s p q →
    ∃ cp cq, st.cost p = some cp ∧ st.cost q = some cq ∧ cq ≤ cp + stepCost s q
  inQueue : ∀ p c, st.visited p = false → st.cost p = some c →
    ∃ n ∈ st.queue, n.pos = p ∧ n.g = c ∧ n.f = c + hvalue s p
  qSound : ∀ n ∈ st.queue, (n.row < s.rows ∧ n.col < s.cols) ∧ PathTo s n.pos n.g ∧
    n.f = n.g + hvalue s n.pos ∧ ∃ cp, st.cost n.pos = some cp ∧ cp ≤ n.g
  prevCost : ∀ p, p ≠ s.start → ∀ c, st.cost p = some c →
    ((st.prev p).1 < s.rows ∧ (st.prev p).2 < s.cols) ∧ stepOK s (st.prev p) p ∧
    ∃ cq, st.cost (st.prev p) = some cq ∧ cq + stepCost s p ≤ c
  goalNotVis : st.visited s.goal = false

/-- Core covering property: along any walk from the start, either some queue
entry already beats the walk (in `f` terms) or the walk's endpoint has been
visited with a recorded cost no worse than the walk. -/
theorem frontier_covers {s : GridState} {st : SearchState} (hinv : Inv s st) :
    ∀ p c, PathTo s p c →
      (∃ n ∈ st.queue, n.f ≤ c + hvalue s p) ∨
      (st.visited p = true ∧ ∃ cp, st.cost p = some cp ∧ cp ≤ c) := by
  intro p c hpath
  induction hpath with
  | nil =>
    cases hv : st.visited s.start with
    | true =>
      obtain ⟨cp, hcp, hmin⟩ := hinv.vis_lb s.start hv
      exact Or.inr ⟨rfl, cp, hcp, hmin 0 PathTo.nil⟩
    | false =>
      obtain ⟨n, hn, hpos, hg, hf⟩ := hinv.inQueue s.start 0 hv hinv.startCost
      refine Or.inl ⟨n, hn, ?_⟩
      rw [hf]
  | @cons p0 q0 c0 hp hstep ih =>
    have hw := getCost_ge_half hstep.2
    have hcons := heuristic_consistent hstep
    rcases ih with ⟨n, hn, hf⟩ | ⟨hvis, cp, hcp, hle⟩
    · refine Or.inl ⟨n, hn, ?_⟩
      have hs2 : c0 + hvalue s p0 ≤ (c0 + stepCost s q0) + hvalue s q0 := by linarith
      linarith
    · obtain ⟨cp2, cq, hcp2, hcq, hrel⟩ := hinv.relaxed p0 q0 hvis hstep
      rw [hcp] at hcp2
      have hcpeq : cp = cp2 := Option.some.inj hcp2
      cases hvq : st.visited q0 with
      | true =>
        refine Or.inr ⟨rfl, cq, hcq, ?_⟩
        rw [← hcpeq] at hrel
        linarith
      | false =>
        obtain ⟨n, hn, hpos, hg, hf⟩ := hinv.inQueue q0 cq hvq hcq
        refine Or.inl ⟨n, hn, ?_⟩
        rw [hf]
        rw [← hcpeq] at hrel
        have : cq ≤ c0 + stepCost s q0 := by linarith
        linarith

/-- The entry expanded by the loop carries the optimal cost of its cell. -/
theorem pop_correct {s : GridState} {st : SearchState} {cur : Node} {rest : List Node}
    (hinv : Inv s st) (hpop : popMin st.queue = some (cur, rest))
    (hnv : st.visited cur.pos = false) :
    st.cost cur.pos = some cur.g ∧ ∀ c2, PathTo s cur.pos c2 → cur.g ≤ c2 := by
  have hperm := popMin_perm hpop
  have hcur : cur ∈ st.queue := hperm.mem_iff.mpr (List.mem_cons_self _ _)
  obtain ⟨hb, hpath, hf, cp, hcp, hcple⟩ := hinv.qSound cur hcur
  obtain ⟨n, hn, hpos, hg, hnf⟩ := hinv.inQueue cur.pos cp hnv hcp
  have hmin := popMin_min hpop
  have h1 : cur.f ≤ n.f := hmin n hn
  rw [hf, hnf] at h1
  have hgcp : cur.g = cp := le_antisymm (by linarith) hcple
  constructor
  · rw [hgcp]; exact hcp
  · intro c2 hpath2
    rcases frontier_covers hinv cur.pos c2 hpath2 with ⟨n2, hn2, hf2⟩ | ⟨hvis, _⟩
    · have h3 := hmin n2 hn2
      rw [hf] at h3
      linarith
    · rw [hnv] at hvis
      cases hvis

/-- Discarding a stale (already visited) entry preserves the invariant. -/
theorem inv_skip {s : GridState} {st : SearchState} {cur : Node} {rest : List Node}
    (hinv : Inv s st) (hpop : popMin st.queue = some (cur, rest))
    (hv : st.visited cur.pos = true) :
    Inv s { st with queue := rest } := by
  have hperm := popMin_perm hpop
  have hrest : ∀ n ∈ rest, n ∈ st.queue := fun n hn =>
    hperm.mem_iff.mpr (List.mem_cons_of_mem _ hn)
  refine ⟨hinv.startCost, hinv.prevStart, hinv.sound, hinv.vis_lb, hinv.relaxed,
    ?_, ?_, hinv.prevCost, hinv.goalNotVis⟩
  · intro p c hnv hc
    obtain ⟨n, hn, hpos, hg, hf⟩ := hinv.inQueue p c hnv hc
    have hne : n ≠ cur := by
      intro he
      rw [he] at hpos
      rw [hpos] at hv
      rw [hv] at hnv
      cases hnv
    have hn2 : n ∈ cur :: rest := hperm.mem_iff.mp hn
    rcases List.mem_cons.mp hn2 with rfl | hn3
    · exact absurd rfl hne
    · exact ⟨n, hn3, hpos, hg, hf⟩
  · intro n hn
    exact hinv.qSound n (hrest n hn)

/-- The invariant holds for the state set up by `initialize` plus the two
start-seeding lines, provided the start is in bounds (as it is in every state
the UI can produce; an out-of-bounds start would be undefined behaviour in the
C++). -/
theorem inv_init (s : GridState) (hsb : s.start.1 < s.rows ∧ s.start.2 < s.cols) :
    Inv s (initSearch s) := by
  have hcost : ∀ p, (initSearch s).cost p = if p = s.start then some (0:ℚ) else none :=
    fun p => rfl
  have hvis : ∀ p, (initSearch s).visited p = false := fun p => rfl
  have hqueue : (initSearch s).queue =
      [⟨s.start.1, s.start.2, 0, heuristic s s.start.1 s.start.2⟩] := rfl
  refine ⟨?_, rfl, ?_, ?_, ?_, ?_, ?_, ?_, rfl⟩
  · rw [hcost, if_pos rfl]
  · intro p c hc
    rw [hcost] at hc
    by_cases hp : p = s.start
    · rw [if_pos hp] at hc
      subst hp
      rw [← Option.some.inj hc]
      exact PathTo.nil
    · rw [if_neg hp] at hc
      cases hc
  · intro p hp
    rw [hvis] at hp
    cases hp
  · intro p q hp
    rw [hvis] at hp
    cases hp
  · intro p c hnv hc
    rw [hcost] at hc
    by_cases hp : p = s.start
    · subst hp
      rw [if_pos rfl] at hc
      rw [hqueue]
      refine ⟨⟨s.start.1, s.start.2, 0, heuristic s s.start.1 s.start.2⟩,
        List.mem_singleton.mpr rfl, rfl, Option.some.inj hc, ?_⟩
      rw [← Option.some.inj hc, zero_add]
      rfl
    · rw [if_neg hp] at hc
      cases hc
  · intro n hn
    rw [hqueue] at hn
    rcases List.mem_singleton.mp hn with rfl
    refine ⟨hsb, PathTo.nil, ?_, 0, ?_, le_refl 0⟩
    · show heuristic s s.start.1 s.start.2 = 0 + hvalue s (s.start.1, s.start.2)
      rw [zero_add]
      rfl
    · rw [hcost]
      simp [Node.pos]
  · intro p hps c hc
    rw [hcost, if_neg hps] at hc
    cases hc


/-! ## Preservation of the invariant by one loop iteration -/

theorem updB_apply (f : Nat × Nat → Bool) (p q : Nat × Nat) :
    updB f p q = if q = p then true else f q := rfl

/-- The invariant during the neighbor loop of one expansion: all of `Inv`
except that `relaxed` is only guaranteed for previously expanded cells, plus
the facts established for the cell being expanded. -/
structure MidInv (s : GridState) (cur : Node) (st : SearchState) : Prop where
  startCost : st.cost s.start = some 0
  prevStart : st.prev s.start = (101, 101)
  sound : ∀ p c, st.cost p = some c → PathTo s p c
  vis_lb : ∀ p, st.visited p = true →
    ∃ cp, st.cost p = some cp ∧ ∀ c2, PathTo s p c2 → cp ≤ c2
  relaxedOld : ∀ p q, st.visited p = true → p ≠ cur.pos → stepOK s p q →
    ∃ cp cq, st.cost p = some cp ∧ st.cost q = some cq ∧ cq ≤ cp + stepCost s q
  inQueue : ∀ p c, st.visited p = false → st.cost p = some c →
    ∃ n ∈ st.queue, n.pos = p ∧ n.g = c ∧ n.f = c + hvalue s p
  qSound : ∀ n ∈ st.queue, (n.row < s.rows ∧ n.col < s.cols) ∧ PathTo s n.pos n.g ∧
    n.f = n.g + hvalue s n.pos ∧ ∃ cp, st.cost n.pos = some cp ∧ cp ≤ n.g
  prevCost : ∀ p, p ≠ s.start → ∀ c, st.cost p = some c →
    ((st.prev p).1 < s.rows ∧ (st.prev p).2 < s.cols) ∧ stepOK s (st.prev p) p ∧
    ∃ cq, st.cost (st.prev p) = some cq ∧ cq + stepCost s p ≤ c
  goalNotVis : st.visited s.goal = false
  curVis : st.visited cur.pos = true
  curCost : st.cost cur.pos = some cur.g
  curMin : ∀ c2, PathTo s cur.pos c2 → cur.g ≤ c2
  curIn : cur.row < s.rows ∧ cur.col < s.cols

theorem relaxDir_eq3 (s : GridState) (cur : Node) (st : SearchState) (d : Int × Int) :
    (relaxDir s cur st d = st ∧
      ∀ np, shift s (cur.row, cur.col) d = some np → s.grid np.1 np.2 ≠ .Wall →
        ∃ cq, st.cost np = some cq ∧ cq ≤ cur.g + stepCost s np) ∨
    (∃ np, shift s (cur.row, cur.col) d = some np ∧
      s.grid np.1 np.2 ≠ .Wall ∧
      ltOpt (cur.g + stepCost s np) (st.cost np) = true ∧
      relaxDir s cur st d =
        { cost := updC st.cost np (cur.g + stepCost s np)
          visited := st.visited
          prev := updP st.prev np (cur.row, cur.col)
          queue := st.queue ++ [⟨np.1, np.2, cur.g + stepCost s np,
                     cur.g + stepCost s np + heuristic s np.1 np.2⟩] }) := by
  rcases relaxDir_eq s cur st d with heq | ⟨np, hsh, hnw, hlt, heq⟩
  · left
    refine ⟨heq, ?_⟩
    intro np hshnp hnwnp
    -- re-examine the definition at np
    have : relaxDir s cur st d = st := heq
    unfold relaxDir at this
    rw [hshnp] at this
    dsimp only at this
    rw [if_neg (fun hw => hnwnp ((getCost_neg_iff _).mp hw))] at this
    cases hltc : ltOpt (cur.g + getCost (s.grid np.1 np.2)) (st.cost np) with
    | false =>
      obtain ⟨cq, hcq, hle⟩ := ltOpt_false_some hltc
      exact ⟨cq, hcq, hle⟩
    | true =>
      rw [if_pos hltc] at this
      -- the updated state equals st: compare the queues
      have hq := congrArg SearchState.queue this
      dsimp only at hq
      exfalso
      have hlen := congrArg List.length hq
      rw [List.length_append] at hlen
      simp at hlen
  · right
    exact ⟨np, hsh, hnw, hlt, heq⟩

theorem relaxDir_mid {s : GridState} {cur : Node} {st : SearchState} {d : Int × Int}
    (hd : d ∈ dirs) (hm : MidInv s cur st) :
    MidInv s cur (relaxDir s cur st d) ∧
    (∀ p c, st.cost p = some c →
      ∃ c2, (relaxDir s cur st d).cost p = some c2 ∧ c2 ≤ c) ∧
    (∀ np, shift s (cur.row, cur.col) d = some np → s.grid np.1 np.2 ≠ .Wall →
      ∃ cq, (relaxDir s cur st d).cost np = some cq ∧ cq ≤ cur.g + stepCost s np) := by
  rcases relaxDir_eq3 s cur st d with ⟨heq, hrel⟩ | ⟨np, hsh, hnw, hlt, heq⟩
  · rw [heq]
    exact ⟨hm, fun p c hc => ⟨c, hc, le_refl c⟩, hrel⟩
  · have hstep : stepOK s cur.pos np := ⟨⟨d, hd, hsh⟩, hnw⟩
    have hcurpath : PathTo s cur.pos cur.g := hm.sound cur.pos cur.g hm.curCost
    have hpathnew : PathTo s np (cur.g + stepCost s np) := PathTo.cons hcurpath hstep
    have hg0 : 0 ≤ cur.g := pathTo_nonneg hcurpath
    have hwhalf : (1:ℚ)/2 ≤ stepCost s np := getCost_ge_half hnw
    have hnpc : np ≠ cur.pos := by
      have hc := (shift_mem_cases ⟨d, hd, hsh⟩).2
      dsimp only at hc
      intro he
      have h1 : np.1 = cur.row := by rw [he]; rfl
      have h2 : np.2 = cur.col := by rw [he]; rfl
      rcases hc with ⟨a, b⟩ | ⟨a, b⟩ | ⟨a, b⟩ | ⟨a, b⟩ <;> omega
    have hnps : np ≠ s.start := by
      intro he
      subst he
      have hl := hlt
      rw [hm.startCost] at hl
      have := ltOpt_true_some hl
      linarith
    have hnpv : st.visited np = false := by
      cases hv : st.visited np with
      | false => rfl
      | true =>
        obtain ⟨cnp, hcnp, hminnp⟩ := hm.vis_lb np hv
        have hl := hlt
        rw [hcnp] at hl
        have h1 := ltOpt_true_some hl
        have h2 := hminnp _ hpathnew
        linarith
    have hbnp := shift_bounds hsh
    have hcost2 : ∀ p, (relaxDir s cur st d).cost p =
        if p = np then some (cur.g + stepCost s np) else st.cost p := by
      intro p; rw [heq]; rfl
    have hvis2 : ∀ p, (relaxDir s cur st d).visited p = st.visited p := by
      intro p; rw [heq]
    have hprev2 : ∀ p, (relaxDir s cur st d).prev p =
        if p = np then (cur.row, cur.col) else st.prev p := by
      intro p; rw [heq]; rfl
    have hqueue2 : (relaxDir s cur st d).queue =
        st.queue ++ [⟨np.1, np.2, cur.g + stepCost s np,
          cur.g + stepCost s np + heuristic s np.1 np.2⟩] := by rw [heq]
    have hcostmono : ∀ p c, st.cost p = some c →
        ∃ c2, (relaxDir s cur st d).cost p = some c2 ∧ c2 ≤ c := by
      intro p c hc
      rw [hcost2]
      by_cases hp : p = np
      · subst hp
        rw [if_pos rfl]
        have hl := hlt
        rw [hc] at hl
        exact ⟨_, rfl, le_of_lt (ltOpt_true_some hl)⟩
      · rw [if_neg hp]
        exact ⟨c, hc, le_refl c⟩
    refine ⟨⟨?_, ?_, ?_, ?_, ?_, ?_, ?_, ?_, ?_, ?_, ?_, hm.curMin, hm.curIn⟩, hcostmono, ?_⟩
    · rw [hcost2, if_neg (fun he => hnps he.symm)]
      exact hm.startCost
    · rw [hprev2, if_neg (fun he => hnps he.symm)]
      exact hm.prevStart
    · intro p c hc
      rw [hcost2] at hc
      by_cases hp : p = np
      · rw [if_pos hp] at hc
        subst hp
        rw [← Option.some.inj hc]
        exact hpathnew
      · rw [if_neg hp] at hc
        exact hm.sound p c hc
    · intro p hp
      rw [hvis2] at hp
      have hpn : p ≠ np := by
        intro he; subst he
        rw [hp] at hnpv
        cases hnpv
      obtain ⟨cp, hcp, hmin⟩ := hm.vis_lb p hp
      refine ⟨cp, ?_, hmin⟩
      rw [hcost2, if_neg hpn]
      exact hcp
    · intro p q hp hpc hstep2
      rw [hvis2] at hp
      have hpn : p ≠ np := by
        intro he; subst he
        rw [hp] at hnpv
        cases hnpv
      obtain ⟨cp, cq, hcp, hcq, hrel2⟩ := hm.relaxedOld p q hp hpc hstep2
      refine ⟨cp, ?_⟩
      by_cases hq : q = np
      · subst hq
        refine ⟨cur.g + stepCost s q, ?_, ?_, ?_⟩
        · rw [hcost2, if_neg hpn]; exact hcp
        · rw [hcost2, if_pos rfl]
        · have hl := hlt
          rw [hcq] at hl
          have := ltOpt_true_some hl
          linarith
      · refine ⟨cq, ?_, ?_, hrel2⟩
        · rw [hcost2, if_neg hpn]; exact hcp
        · rw [hcost2, if_neg hq]; exact hcq
    · intro p c hnv2 hc2
      rw [hvis2] at hnv2
      rw [hcost2] at hc2
      rw [hqueue2]
      by_cases hp : p = np
      · rw [if_pos hp] at hc2
        subst hp
        refine ⟨⟨p.1, p.2, cur.g + stepCost s p,
          cur.g + stepCost s p + heuristic s p.1 p.2⟩,
          List.mem_append_right _ (List.mem_singleton.mpr rfl), rfl,
          Option.some.inj hc2, ?_⟩
        rw [← Option.some.inj hc2]
        rfl
      · rw [if_neg hp] at hc2
        obtain ⟨n, hn, hpos, hg, hfn⟩ := hm.inQueue p c hnv2 hc2
        exact ⟨n, List.mem_append_left _ hn, hpos, hg, hfn⟩
    · intro n hn
      rw [hqueue2] at hn
      rcases List.mem_append.mp hn with hn2 | hn2
      · obtain ⟨hb2, hpath2, hf2, cp, hcp, hcple⟩ := hm.qSound n hn2
        obtain ⟨c2, hc2, hle2⟩ := hcostmono _ cp hcp
        exact ⟨hb2, hpath2, hf2, c2, hc2, le_trans hle2 hcple⟩
      · rcases List.mem_singleton.mp hn2 with rfl
        refine ⟨hbnp, hpathnew, rfl, cur.g + stepCost s np, ?_, le_refl _⟩
        rw [hcost2]
        simp [Node.pos]
    · intro p hps c hc
      rw [hcost2] at hc
      by_cases hp : p = np
      · rw [if_pos hp] at hc
        subst hp
        rw [hprev2, if_pos rfl]
        refine ⟨hm.curIn, hstep, cur.g, ?_, ?_⟩
        · rw [hcost2, if_neg (fun he => hnpc he.symm)]
          exact hm.curCost
        · rw [← Option.some.inj hc]
      · rw [if_neg hp] at hc
        obtain ⟨hbp, hstepp, cq, hcq, hle⟩ := hm.prevCost p hps c hc
        rw [hprev2, if_neg hp]
        refine ⟨hbp, hstepp, ?_⟩
        obtain ⟨c2, hc2, hle2⟩ := hcostmono _ cq hcq
        exact ⟨c2, hc2, by linarith⟩
    · rw [hvis2]
      exact hm.goalNotVis
    · rw [hvis2]
      exact hm.curVis
    · rw [hcost2, if_neg (fun he => hnpc he.symm)]
      exact hm.curCost
    · intro np2 hsh2 hnw2
      rw [hsh] at hsh2
      cases hsh2
      refine ⟨cur.g + stepCost s np, ?_, le_refl _⟩
      rw [hcost2, if_pos rfl]


/-- Expanding an unvisited, non-goal node preserves the invariant. -/
theorem inv_step {s : GridState} {st : SearchState} {cur : Node} {rest : List Node}
    (hinv : Inv s st) (hpop : popMin st.queue = some (cur, rest))
    (hnv : st.visited cur.pos = false) (hng : cur.pos ≠ s.goal) :
    Inv s (relaxNeighbors s cur
      { st with queue := rest, visited := updB st.visited cur.pos }) := by
  have hperm := popMin_perm hpop
  have hcur : cur ∈ st.queue := hperm.mem_iff.mpr (List.mem_cons_self _ _)
  obtain ⟨hb, hpath, hf, cp0, hcp0, hcple0⟩ := hinv.qSound cur hcur
  obtain ⟨hcc, hcm⟩ := pop_correct hinv hpop hnv
  have hm1 : MidInv s cur { st with queue := rest, visited := updB st.visited cur.pos } := by
    refine ⟨hinv.startCost, hinv.prevStart, hinv.sound, ?_, ?_, ?_, ?_,
      hinv.prevCost, ?_, ?_, hcc, hcm, hb⟩
    · intro p hp
      by_cases hpc : p = cur.pos
      · subst hpc
        exact ⟨cur.g, hcc, hcm⟩
      · have h2 : updB st.visited cur.pos p = true := hp
        rw [updB_apply, if_neg hpc] at h2
        exact hinv.vis_lb p h2
    · intro p q hp hpc hstep2
      have h2 : updB st.visited cur.pos p = true := hp
      rw [updB_apply, if_neg hpc] at h2
      exact hinv.relaxed p q h2 hstep2
    · intro p c hnv2 hc
      have hpc : p ≠ cur.pos := by
        intro he
        subst he
        have h2 : updB st.visited cur.pos cur.pos = false := hnv2
        rw [updB_apply, if_pos rfl] at h2
        cases h2
      have hnvold : st.visited p = false := by
        have h2 : updB st.visited cur.pos p = false := hnv2
        rw [updB_apply, if_neg hpc] at h2
        exact h2
      obtain ⟨n, hn, hpos, hg, hfn⟩ := hinv.inQueue p c hnvold hc
      have hne : n ≠ cur := fun he => hpc (by rw [← hpos, he])
      have hn2 : n ∈ cur :: rest := hperm.mem_iff.mp hn
      rcases List.mem_cons.mp hn2 with rfl | hn3
      · exact absurd rfl hne
      · exact ⟨n, hn3, hpos, hg, hfn⟩
    · intro n hn
      exact hinv.qSound n (hperm.mem_iff.mpr (List.mem_cons_of_mem _ hn))
    · show updB st.visited cur.pos s.goal = false
      rw [updB_apply, if_neg (fun he => hng he.symm)]
      exact hinv.goalNotVis
    · show updB st.visited cur.pos cur.pos = true
      rw [updB_apply, if_pos rfl]
  have hd1 : ((-1 : Int), (0 : Int)) ∈ dirs := by simp [dirs]
  have hd2 : ((1 : Int), (0 : Int)) ∈ dirs := by simp [dirs]
  have hd3 : ((0 : Int), (-1 : Int)) ∈ dirs := by simp [dirs]
  have hd4 : ((0 : Int), (1 : Int)) ∈ dirs := by simp [dirs]
  obtain ⟨hmA, hmonoA, hrelA⟩ := relaxDir_mid hd1 hm1
  obtain ⟨hmB, hmonoB, hrelB⟩ := relaxDir_mid hd2 hmA
  obtain ⟨hmC, hmonoC, hrelC⟩ := relaxDir_mid hd3 hmB
  obtain ⟨hmD, hmonoD, hrelD⟩ := relaxDir_mid hd4 hmC
  have hfold : relaxNeighbors s cur { st with queue := rest, visited := updB st.visited cur.pos } =
      relaxDir s cur (relaxDir s cur (relaxDir s cur (relaxDir s cur
        { st with queue := rest, visited := updB st.visited cur.pos } (-1, 0)) (1, 0)) (0, -1)) (0, 1) := rfl
  rw [hfold]
  refine ⟨hmD.startCost, hmD.prevStart, hmD.sound, hmD.vis_lb, ?_, hmD.inQueue,
    hmD.qSound, hmD.prevCost, hmD.goalNotVis⟩
  intro p q hp hstep2
  by_cases hpc : p = cur.pos
  · subst hpc
    obtain ⟨⟨d, hd, hsh⟩, hnw⟩ := hstep2
    simp only [dirs, List.mem_cons, List.not_mem_nil, or_false] at hd
    rcases hd with rfl | rfl | rfl | rfl
    · obtain ⟨cq, hcq, hle⟩ := hrelA q hsh hnw
      obtain ⟨c2, hc2, hle2⟩ := hmonoB _ _ hcq
      obtain ⟨c3, hc3, hle3⟩ := hmonoC _ _ hc2
      obtain ⟨c4, hc4, hle4⟩ := hmonoD _ _ hc3
      exact ⟨cur.g, c4, hmD.curCost, hc4, by linarith⟩
    · obtain ⟨cq, hcq, hle⟩ := hrelB q hsh hnw
      obtain ⟨c3, hc3, hle3⟩ := hmonoC _ _ hcq
      obtain ⟨c4, hc4, hle4⟩ := hmonoD _ _ hc3
      exact ⟨cur.g, c4, hmD.curCost, hc4, by linarith⟩
    · obtain ⟨cq, hcq, hle⟩ := hrelC q hsh hnw
      obtain ⟨c4, hc4, hle4⟩ := hmonoD _ _ hcq
      exact ⟨cur.g, c4, hmD.curCost, hc4, by linarith⟩
    · obtain ⟨cq, hcq, hle⟩ := hrelD q hsh hnw
      exact ⟨cur.g, cq, hmD.curCost, hcq, hle⟩
  · exact hmD.relaxedOld p q hp hpc hstep2


/-! ## What the loop returns -/

/-- Facts about the internal state at the moment `findPath` returns
successfully. -/
structure FinalState (s : GridState) (st : SearchState) (r : PathResult) : Prop where
  sound : ∀ p c, st.cost p = some c → PathTo s p c
  startCost : st.cost s.start = some 0
  prevStart : st.prev s.start = (101, 101)
  prevCost : ∀ p, p ≠ s.start → ∀ c, st.cost p = some c →
    ((st.prev p).1 < s.rows ∧ (st.prev p).2 < s.cols) ∧ stepOK s (st.prev p) p ∧
    ∃ cq, st.cost (st.prev p) = some cq ∧ cq + stepCost s p ≤ c
  goalIn : s.goal.1 < s.rows ∧ s.goal.2 < s.cols
  goalCost : st.cost s.goal = some r.totalCost
  goalMin : ∀ c2, PathTo s s.goal c2 → r.totalCost ≤ c2
  pathEq : r.path = reconstructPath st.prev (s.rows * s.cols + 1) s.goal

/-- Any completed run of the main loop either exhausts the frontier — and
then the goal is unreachable and the result is the `-1` sentinel with an
empty path — or pops the goal with the optimal cost recorded. -/
theorem searchLoop_correct (s : GridState) : ∀ fuel (st : SearchState) (r : PathResult),
    Inv s st → searchLoop s fuel st = some r →
    (r = ⟨[], -1⟩ ∧ ∀ c, ¬ PathTo s s.goal c) ∨ (∃ st2, FinalState s st2 r) := by
  intro fuel
  induction fuel with
  | zero => intro st r hinv h; cases h
  | succ fuel ih =>
    intro st r hinv h
    rw [searchLoop] at h
    cases hpop : popMin st.queue with
    | none =>
      rw [hpop] at h
      dsimp only at h
      left
      have hr : r = ⟨[], -1⟩ := (Option.some.inj h).symm
      refine ⟨hr, ?_⟩
      intro c hpath
      rcases frontier_covers hinv s.goal c hpath with ⟨n, hn, _⟩ | ⟨hvis, _⟩
      · rw [(popMin_none_iff _).mp hpop] at hn
        cases hn
      · rw [hinv.goalNotVis] at hvis
        cases hvis
    | some x =>
      obtain ⟨cur, rest⟩ := x
      rw [hpop] at h
      dsimp only at h
      by_cases hv : st.visited (cur.row, cur.col) = true
      · rw [if_pos hv] at h
        exact ih _ r (inv_skip hinv hpop hv) h
      · rw [Bool.not_eq_true] at hv
        rw [if_neg (by rw [hv]; exact Bool.false_ne_true)] at h
        have hpc := pop_correct hinv hpop hv
        obtain ⟨hcc, hcm⟩ := hpc
        have hperm := popMin_perm hpop
        have hcur : cur ∈ st.queue := hperm.mem_iff.mpr (List.mem_cons_self _ _)
        obtain ⟨hb, hpathc, hfc, cp0, hcp0, hcple0⟩ := hinv.qSound cur hcur
        by_cases hg : cur.row = s.goal.1 ∧ cur.col = s.goal.2
        · rw [if_pos hg] at h
          right
          have hgoalpos : cur.pos = s.goal := Prod.ext hg.1 hg.2
          have hgc : st.cost s.goal = some cur.g := by rw [← hgoalpos]; exact hcc
          have hr := (Option.some.inj h).symm
          subst hr
          refine ⟨{ st with queue := rest, visited := updB st.visited (cur.row, cur.col) },
            hinv.sound, hinv.startCost, hinv.prevStart, hinv.prevCost, ?_, ?_, ?_, rfl⟩
          · exact ⟨hg.1 ▸ hb.1, hg.2 ▸ hb.2⟩
          · show st.cost s.goal = some ((st.cost s.goal).getD 0)
            rw [hgc]
            rfl
          · intro c2 hp2
            have hle := hcm c2 (by rw [hgoalpos]; exact hp2)
            show (st.cost s.goal).getD 0 ≤ c2
            rw [hgc]
            exact hle
        · rw [if_neg hg] at h
          have hng : cur.pos ≠ s.goal := by
            intro he
            exact hg ⟨congrArg Prod.fst he, congrArg Prod.snd he⟩
          exact ih _ r (inv_step hinv hpop hv hng) h


/-! ## The reconstructed path -/

theorem dropLast_cons_ne {α : Type} (a : α) (l : List α) (h : l ≠ []) :
    (a :: l).dropLast = a :: l.dropLast := by
  cases l with
  | nil => exact absurd rfl h
  | cons b t => rfl

/-- Every coordinate the backtracking loop collects has a recorded cost, and
is not a wall unless it is the start cell itself. -/
theorem collect_nonwall {s : GridState} {st : SearchState}
    (hps : st.prev s.start = (101, 101))
    (hprevCost : ∀ p, p ≠ s.start → ∀ c, st.cost p = some c →
      ((st.prev p).1 < s.rows ∧ (st.prev p).2 < s.cols) ∧ stepOK s (st.prev p) p ∧
      ∃ cq, st.cost (st.prev p) = some cq ∧ cq + stepCost s p ≤ c) :
    ∀ fuel (cur : Nat × Nat), (∃ c, st.cost cur = some c) →
      ∀ p ∈ collectPath st.prev fuel cur,
        (∃ cp, st.cost p = some cp) ∧ (p ≠ s.start → s.grid p.1 p.2 ≠ .Wall) := by
  intro fuel
  induction fuel with
  | zero => intro cur hc p hp; cases hp
  | succ fuel ih =>
    intro cur hc p hp
    rw [collectPath] at hp
    by_cases h101 : cur.1 = 101
    · rw [if_pos h101] at hp; cases hp
    · rw [if_neg h101] at hp
      rcases List.mem_cons.mp hp with rfl | hp2
      · refine ⟨hc, ?_⟩
        intro hne
        obtain ⟨c, hcc⟩ := hc
        obtain ⟨_, hstep, _⟩ := hprevCost p hne c hcc
        exact hstep.2
      · by_cases hcs : cur = s.start
        · subst hcs
          rw [hps] at hp2
          cases fuel with
          | zero => cases hp2
          | succ fuel2 =>
            rw [collectPath] at hp2
            rw [if_pos rfl] at hp2
            cases hp2
        · obtain ⟨c, hcc⟩ := hc
          obtain ⟨_, _, cq, hcq, _⟩ := hprevCost cur hcs c hcc
          exact ih (st.prev cur) ⟨cq, hcq⟩ p hp2

/-- Cells whose recorded cost is at most `c`. -/
def costLEP (st : SearchState) (c : ℚ) (p : Nat × Nat) : Prop :=
  ∃ cp, st.cost p = some cp ∧ cp ≤ c

instance (st : SearchState) (c : ℚ) (p : Nat × Nat) : Decidable (costLEP st c p) := by
  unfold costLEP
  cases h : st.cost p with
  | none =>
    refine isFalse ?_
    rintro ⟨cp, hcp, _⟩
    cases hcp
  | some v =>
    by_cases hv : v ≤ c
    · exact isTrue ⟨v, rfl, hv⟩
    · refine isFalse ?_
      rintro ⟨cp, hcp, hle⟩
      exact hv ((Option.some.inj hcp) ▸ hle)

def costedLE (s : GridState) (st : SearchState) (c : ℚ) : Finset (Nat × Nat) :=
  (Finset.range s.rows ×ˢ Finset.range s.cols).filter (costLEP st c)

theorem costedLE_card_le (s : GridState) (st : SearchState) (c : ℚ) :
    (costedLE s st c).card ≤ s.rows * s.cols := by
  calc (costedLE s st c).card ≤ (Finset.range s.rows ×ˢ Finset.range s.cols).card :=
        Finset.card_filter_le _ _
    _ = s.rows * s.cols := by rw [Finset.card_product, Finset.card_range, Finset.card_range]

theorem costedLE_lt {s : GridState} {st : SearchState} {cur : Nat × Nat} {c cq : ℚ}
    (hcur : st.cost cur = some c) (hcurb : cur.1 < s.rows ∧ cur.2 < s.cols)
    (hlt : cq < c) :
    (costedLE s st cq).card < (costedLE s st c).card := by
  have hsub : costedLE s st cq ⊆ (costedLE s st c).erase cur := by
    intro p hp
    simp only [costedLE, Finset.mem_filter, Finset.mem_erase] at hp ⊢
    obtain ⟨hpr, cp, hcp, hle⟩ := hp
    refine ⟨?_, hpr, cp, hcp, by linarith⟩
    intro he
    subst he
    rw [hcur] at hcp
    have heq := Option.some.inj hcp
    rw [← heq] at hle
    linarith
  have hmem : cur ∈ costedLE s st c := by
    simp only [costedLE, Finset.mem_filter, Finset.mem_product, Finset.mem_range]
    exact ⟨⟨hcurb.1, hcurb.2⟩, c, hcur, le_refl c⟩
  calc (costedLE s st cq).card ≤ ((costedLE s st c).erase cur).card :=
        Finset.card_le_card hsub
    _ < (costedLE s st c).card := Finset.card_erase_lt_of_mem hmem

/-- The cost sum over a collected chain, excluding its last element (the
chain ends at the start, which no step enters). -/
def sumSteps (s : GridState) (l : List (Nat × Nat)) : ℚ :=
  (l.dropLast.map (stepCost s)).sum

/-- With at most 101 rows (so no real cell sits on the sentinel row), the
backtracking loop runs all the way to the start, the collected chain is a
genuine walk from the start to `cur`, and its step sum is bounded by the
recorded cost of `cur`. -/
theorem collect_sum {s : GridState} {st : SearchState}
    (hrows : s.rows ≤ 101)
    (hstart : st.cost s.start = some 0)
    (hps : st.prev s.start = (101, 101))
    (hprevCost : ∀ p, p ≠ s.start → ∀ c, st.cost p = some c →
      ((st.prev p).1 < s.rows ∧ (st.prev p).2 < s.cols) ∧ stepOK s (st.prev p) p ∧
      ∃ cq, st.cost (st.prev p) = some cq ∧ cq + stepCost s p ≤ c) :
    ∀ fuel (cur : Nat × Nat) (c : ℚ), st.cost cur = some c →
      cur.1 < s.rows ∧ cur.2 < s.cols →
      (costedLE s st c).card < fuel →
      collectPath st.prev fuel cur ≠ [] ∧
      PathTo s cur (sumSteps s (collectPath st.prev fuel cur)) ∧
      sumSteps s (collectPath st.prev fuel cur) ≤ c := by
  intro fuel
  induction fuel with
  | zero => intro cur c hc hb hcard; omega
  | succ fuel ih =>
    intro cur c hc hb hcard
    have h101 : cur.1 ≠ 101 := by omega
    rw [collectPath, if_neg h101]
    by_cases hcs : cur = s.start
    · subst hcs
      rw [hstart] at hc
      have hc0 : c = 0 := (Option.some.inj hc).symm
      rw [hps]
      have hcollect : collectPath st.prev fuel (101, 101) = [] := by
        cases fuel with
        | zero => rfl
        | succ f2 => rw [collectPath, if_pos rfl]
      rw [hcollect]
      refine ⟨by simp, ?_, ?_⟩
      · show PathTo s s.start (sumSteps s [s.start])
        show PathTo s s.start 0
        exact PathTo.nil
      · show (0 : ℚ) ≤ c
        rw [hc0]
    · obtain ⟨hbp, hstep, cq, hcq, hle⟩ := hprevCost cur hcs c hc
      have hwc : (1:ℚ)/2 ≤ stepCost s cur := getCost_ge_half hstep.2
      have hlt2 : cq < c := by linarith
      have hcard2 : (costedLE s st cq).card < fuel := by
        have := costedLE_lt hc hb hlt2
        omega
      obtain ⟨hne, hpath, hsum⟩ := ih (st.prev cur) cq hcq hbp hcard2
      have hss : sumSteps s (cur :: collectPath st.prev fuel (st.prev cur)) =
          stepCost s cur + sumSteps s (collectPath st.prev fuel (st.prev cur)) := by
        unfold sumSteps
        rw [dropLast_cons_ne _ _ hne, List.map_cons, List.sum_cons]
      refine ⟨by simp, ?_, ?_⟩
      · rw [hss, add_comm]
        exact PathTo.cons hpath hstep
      · rw [hss]
        linarith

theorem tail_reverse_eq (l : List (Nat × Nat)) : l.reverse.tail = l.dropLast.reverse := by
  cases hl : l with
  | nil => rfl
  | cons a t =>
    have hne : l ≠ [] := by rw [hl]; simp
    rw [← hl]
    conv_lhs => rw [← List.dropLast_append_getLast hne]
    rw [List.reverse_append]
    simp

theorem pathCostSum_reverse (s : GridState) (l : List (Nat × Nat)) :
    pathCostSum s l.reverse = sumSteps s l := by
  unfold pathCostSum sumSteps
  rw [tail_reverse_eq, List.map_reverse, List.sum_reverse]

/-! ## Reachability on wall-free grids -/

theorem pathTo_all (s : GridState)
    (hnw : ∀ p : Nat × Nat, p.1 < s.rows → p.2 < s.cols → s.grid p.1 p.2 ≠ .Wall) :
    ∀ n : Nat, ∀ q : Nat × Nat,
      natAbsDiff q.1 s.start.1 + natAbsDiff q.2 s.start.2 = n →
      q.1 < s.rows → q.2 < s.cols →
      (s.start.1 < s.rows ∧ s.start.2 < s.cols) → ∃ c, PathTo s q c := by
  intro n
  induction n using Nat.strong_induction_on with
  | _ n ih =>
    intro q hm hq1 hq2 hsb
    by_cases hqs : q = s.start
    · subst hqs; exact ⟨0, PathTo.nil⟩
    · have hne : q.1 ≠ s.start.1 ∨ q.2 ≠ s.start.2 := by
        by_contra hcon
        push_neg at hcon
        exact hqs (Prod.ext hcon.1 hcon.2)
      have hstepq : ∀ q2 : Nat × Nat, q2.1 < s.rows → q2.2 < s.cols →
          ((q.1 + 1 = q2.1 ∧ q.2 = q2.2) ∨ (q.1 = q2.1 + 1 ∧ q.2 = q2.2) ∨
           (q.1 = q2.1 ∧ q.2 + 1 = q2.2) ∨ (q.1 = q2.1 ∧ q.2 = q2.2 + 1)) →
          natAbsDiff q2.1 s.start.1 + natAbsDiff q2.2 s.start.2 < n →
          ∃ c, PathTo s q c := by
        intro q2 h2r h2c hadj hlt
        obtain ⟨c, hc⟩ := ih _ hlt q2 rfl h2r h2c hsb
        exact ⟨c + stepCost s q,
          PathTo.cons hc (stepOK_intro s q2 q ⟨hq1, hq2⟩ (hnw q hq1 hq2) hadj)⟩
      by_cases hrow : q.1 ≠ s.start.1
      · rcases Nat.lt_or_ge q.1 s.start.1 with hlt | hge
        · refine hstepq (q.1 + 1, q.2) (by omega) hq2 (Or.inl ⟨rfl, rfl⟩) ?_
          rw [← hm]
          simp only [natAbsDiff_eq]
          split_ifs <;> omega
        · have hgt : s.start.1 < q.1 := by omega
          refine hstepq (q.1 - 1, q.2) (by omega) hq2
            (Or.inr (Or.inl ⟨by omega, rfl⟩)) ?_
          rw [← hm]
          simp only [natAbsDiff_eq]
          split_ifs <;> omega
      · push_neg at hrow
        have hcol : q.2 ≠ s.start.2 := by tauto
        rcases Nat.lt_or_ge q.2 s.start.2 with hlt | hge
        · refine hstepq (q.1, q.2 + 1) hq1 (by omega) (Or.inr (Or.inr (Or.inl ⟨rfl, rfl⟩))) ?_
          rw [← hm]
          simp only [natAbsDiff_eq]
          split_ifs <;> omega
        · have hgt : s.start.2 < q.2 := by omega
          refine hstepq (q.1, q.2 - 1) hq1 (by omega)
            (Or.inr (Or.inr (Or.inr ⟨rfl, by omega⟩))) ?_
          rw [← hm]
          simp only [natAbsDiff_eq]
          split_ifs <;> omega


/-! ## The pathfinding claims -/

/-- General helper: the main loop always completes within `searchFuel` when
the start is in bounds. -/
theorem searchLoop_total (s : GridState)
    (hsb : s.start.1 < s.rows ∧ s.start.2 < s.cols) :
    ∃ r, searchLoop s (searchFuel s) (initSearch s) = some r := by
  have hq : ∀ n ∈ (initSearch s).queue, n.row < s.rows ∧ n.col < s.cols := by
    intro n hn
    rcases List.mem_singleton.mp hn with rfl
    exact hsb
  have hm : (initSearch s).queue.length + 4 * unvisitedF s (initSearch s).visited <
      searchFuel s := by
    have := unvisitedF_le s (initSearch s).visited
    show 1 + 4 * unvisitedF s (initSearch s).visited < 4 * (s.rows * s.cols) + 2
    omega
  have hsome := searchLoop_isSome s (searchFuel s) (initSearch s) hq hm
  cases hres : searchLoop s (searchFuel s) (initSearch s) with
  | none => rw [hres] at hsome; cases hsome
  | some r => exact ⟨r, rfl⟩

/-- Helper: `findPath` on a state that enters the search. -/
theorem findPath_eq_of_run {s : GridState} {r : PathResult}
    (h1 : s.start.1 ≠ 101) (h2 : s.goal.1 ≠ 101)
    (hr : searchLoop s (searchFuel s) (initSearch s) = some r) :
    findPath s = r := by
  unfold findPath
  rw [if_neg (by tauto), hr]
  rfl

/-- Helper: a walk cannot end in a coordinate no step can enter, other than
the start. -/
theorem pathTo_elim {s : GridState} {q : Nat × Nat} {c : ℚ} (h : PathTo s q c) :
    q = s.start ∨ ∃ p c2, PathTo s p c2 ∧ stepOK s p q := by
  cases h with
  | nil => exact Or.inl rfl
  | cons hp hstep => exact Or.inr ⟨_, _, hp, hstep⟩

/-- Claim C9: `findPath()` terminates on every grid state (with the start in
bounds, as in every state reachable through the grid model; an out-of-bounds
start is undefined behaviour in the C++ source).  The main loop completes
within `searchFuel` iterations — each cell is expanded at most once, so at
most `1 + 4·rows·cols` frontier entries are ever pushed and each iteration
pops one. -/
theorem findPath_terminates (s : GridState)
    (hsb : s.start.1 < s.rows ∧ s.start.2 < s.cols) :
    ∃ r, searchLoop s (searchFuel s) (initSearch s) = some r ∧
      (s.start.1 ≠ 101 → s.goal.1 ≠ 101 → findPath s = r) := by
  obtain ⟨r, hr⟩ := searchLoop_total s hsb
  exact ⟨r, hr, fun h1 h2 => findPath_eq_of_run h1 h2 hr⟩

theorem findPath_terminates_witness :
    ∃ r, searchLoop (runOps (initialGrid 2 2) [.set 0 0 .Start, .set 1 1 .Goal])
        (searchFuel (runOps (initialGrid 2 2) [.set 0 0 .Start, .set 1 1 .Goal]))
        (initSearch (runOps (initialGrid 2 2) [.set 0 0 .Start, .set 1 1 .Goal])) = some r ∧
      ((runOps (initialGrid 2 2) [.set 0 0 .Start, .set 1 1 .Goal]).start.1 ≠ 101 →
       (runOps (initialGrid 2 2) [.set 0 0 .Start, .set 1 1 .Goal]).goal.1 ≠ 101 →
       findPath (runOps (initialGrid 2 2) [.set 0 0 .Start, .set 1 1 .Goal]) = r) :=
  findPath_terminates (runOps (initialGrid 2 2) [.set 0 0 .Start, .set 1 1 .Goal])
    (by decide)

/-- Claim C7: when the search actually runs (both tracked rows differ from
the 101 sentinel, start in bounds) and no wall-free walk connects the start
to the goal, the frontier is exhausted and `findPath()` returns an empty path
with `totalCost = -1`. -/
theorem findPath_unreachable_sentinel (s : GridState)
    (h1 : s.start.1 ≠ 101) (h2 : s.goal.1 ≠ 101)
    (hsb : s.start.1 < s.rows ∧ s.start.2 < s.cols)
    (hunreach : ∀ c, ¬ PathTo s s.goal c) :
    findPath s = ⟨[], -1⟩ := by
  obtain ⟨r, hr⟩ := searchLoop_total s hsb
  have hinv := inv_init s hsb
  rcases searchLoop_correct s (searchFuel s) (initSearch s) r hinv hr with
    ⟨hre, _⟩ | ⟨st2, hfin⟩
  · rw [findPath_eq_of_run h1 h2 hr, hre]
  · exact absurd (hfin.sound s.goal r.totalCost hfin.goalCost) (hunreach _)

theorem findPath_unreachable_sentinel_witness :
    findPath (runOps (initialGrid 1 2) [.set 0 0 .Start, .set 0 1 .Goal, .set 0 1 .Wall]) =
      ⟨[], -1⟩ :=
  findPath_unreachable_sentinel
    (runOps (initialGrid 1 2) [.set 0 0 .Start, .set 0 1 .Goal, .set 0 1 .Wall])
    (by decide) (by decide) (by decide)
    (by
      intro c hp
      rcases pathTo_elim hp with he | ⟨p, c2, _, hstep⟩
      · exact absurd he (by decide)
      · exact hstep.2 (by decide))

/-- Claim C4, counterexample: a 102-row grid whose cells are all `Normal`
with start `(101,0)` and goal `(0,0)` genuinely set.  `findPath()` treats the
start as unset because its row is 101, returns `totalCost = 0`, and `0` is
not the cost of any start-goal walk (the true minimum is `101`). -/
theorem findPath_row101_not_optimal :
    (runOps (initialGrid 102 1) [.set 101 0 .Start, .set 0 0 .Goal,
      .set 101 0 .Normal, .set 0 0 .Normal]).start = (101, 0) ∧
    (runOps (initialGrid 102 1) [.set 101 0 .Start, .set 0 0 .Goal,
      .set 101 0 .Normal, .set 0 0 .Normal]).goal = (0, 0) ∧
    (runOps (initialGrid 102 1) [.set 101 0 .Start, .set 0 0 .Goal,
      .set 101 0 .Normal, .set 0 0 .Normal]).start ≠ (101, 101) ∧
    (∀ r < 102, ∀ c < 1, (runOps (initialGrid 102 1) [.set 101 0 .Start, .set 0 0 .Goal,
      .set 101 0 .Normal, .set 0 0 .Normal]).grid r c = .Normal) ∧
    findPath (runOps (initialGrid 102 1) [.set 101 0 .Start, .set 0 0 .Goal,
      .set 101 0 .Normal, .set 0 0 .Normal]) = ⟨[], 0⟩ ∧
    ¬ PathTo (runOps (initialGrid 102 1) [.set 101 0 .Start, .set 0 0 .Goal,
        .set 101 0 .Normal, .set 0 0 .Normal])
      (runOps (initialGrid 102 1) [.set 101 0 .Start, .set 0 0 .Goal,
        .set 101 0 .Normal, .set 0 0 .Normal]).goal 0 := by
  refine ⟨rfl, rfl, by decide, by decide, rfl, ?_⟩
  intro hp
  have := pathTo_half_of_ne_start hp (by decide)
  linarith

/-- Claim C4, amended: on grids with at most 101 rows, with start and goal
set in bounds and no `Wall` cell anywhere, the returned `totalCost` is
exactly the least cost over all four-directionally connected start-to-goal
walks (step cost keyed by each step's destination cell type). -/
theorem findPath_optimal (s : GridState) (hrows : s.rows ≤ 101)
    (hsb : s.start.1 < s.rows ∧ s.start.2 < s.cols)
    (hgb : s.goal.1 < s.rows ∧ s.goal.2 < s.cols)
    (hnw : ∀ p : Nat × Nat, p.1 < s.rows → p.2 < s.cols → s.grid p.1 p.2 ≠ .Wall) :
    IsLeast { c : ℚ | PathTo s s.goal c } (findPath s).totalCost := by
  have h1 : s.start.1 ≠ 101 := by omega
  have h2 : s.goal.1 ≠ 101 := by omega
  obtain ⟨r, hr⟩ := searchLoop_total s hsb
  have hinv := inv_init s hsb
  rcases searchLoop_correct s (searchFuel s) (initSearch s) r hinv hr with
    ⟨hre, hnone⟩ | ⟨st2, hfin⟩
  · exfalso
    obtain ⟨c, hc⟩ := pathTo_all s hnw _ s.goal rfl hgb.1 hgb.2 hsb
    exact hnone c hc
  · rw [findPath_eq_of_run h1 h2 hr]
    exact ⟨hfin.sound s.goal r.totalCost hfin.goalCost, fun c hc => hfin.goalMin c hc⟩

theorem findPath_optimal_witness :
    IsLeast { c : ℚ | PathTo (runOps (initialGrid 2 2) [.set 0 0 .Start, .set 1 1 .Goal])
        (runOps (initialGrid 2 2) [.set 0 0 .Start, .set 1 1 .Goal]).goal c }
      (findPath (runOps (initialGrid 2 2) [.set 0 0 .Start, .set 1 1 .Goal])).totalCost :=
  findPath_optimal (runOps (initialGrid 2 2) [.set 0 0 .Start, .set 1 1 .Goal])
    (by decide) (by decide) (by decide)
    (by
      intro p hp1 hp2
      rcases p with ⟨a, b⟩
      dsimp only at hp1 hp2
      have hrows : (runOps (initialGrid 2 2)
          [GridOp.set 0 0 .Start, GridOp.set 1 1 .Goal]).rows = 2 := rfl
      have hcols : (runOps (initialGrid 2 2)
          [GridOp.set 0 0 .Start, GridOp.set 1 1 .Goal]).cols = 2 := rfl
      rw [hrows] at hp1
      rw [hcols] at hp2
      have ha : a = 0 ∨ a = 1 := by omega
      have hb : b = 0 ∨ b = 1 := by omega
      rcases ha with rfl | rfl <;> rcases hb with rfl | rfl <;> decide)

/-- Claim C5, counterexample: on a 103-row grid with start `(102,0)` and
goal `(100,0)`, path reconstruction stops as soon as it reaches the real
cell `(101,0)` (its row equals the sentinel value), so the returned path is
the single coordinate `(100,0)` while `totalCost` is the full `2.0`; the sum
of step costs over the returned path is `0 ≠ 2`. -/
theorem findPath_cost_sum_counterexample :
    findPath (runOps (initialGrid 103 1) [.set 102 0 .Start, .set 100 0 .Goal]) =
      ⟨[(100, 0)], 2⟩ ∧
    pathCostSum (runOps (initialGrid 103 1) [.set 102 0 .Start, .set 100 0 .Goal])
      [(100, 0)] = 0 ∧
    (2 : ℚ) ≠ 0 := by
  refine ⟨by set_option maxRecDepth 4000 in with_unfolding_all decide, rfl, by norm_num⟩

/-- Claim C5, amended: on grids with at most 101 rows (no real cell on the
sentinel row) and the start in bounds, whenever `findPath()` returns a
non-empty path `p0, …, pn`, the returned `totalCost` equals
`Σ stepCost(p_i)` for `i = 1..n`, step cost keyed by the destination cell's
type (Rough 2.0, Boost 0.5, Normal/Start/Goal 1.0). -/
theorem findPath_cost_eq_pathSum (s : GridState) (hrows : s.rows ≤ 101)
    (hsb : s.start.1 < s.rows ∧ s.start.2 < s.cols) :
    (findPath s).path ≠ [] →
    (findPath s).totalCost = pathCostSum s (findPath s).path := by
  intro hne
  by_cases h2 : s.goal.1 = 101
  · exfalso
    apply hne
    unfold findPath
    rw [if_pos (Or.inr h2)]
  · have h1 : s.start.1 ≠ 101 := by omega
    obtain ⟨r, hr⟩ := searchLoop_total s hsb
    have hinv := inv_init s hsb
    have hfp : findPath s = r := findPath_eq_of_run h1 h2 hr
    rw [hfp] at hne ⊢
    rcases searchLoop_correct s (searchFuel s) (initSearch s) r hinv hr with
      ⟨hre, _⟩ | ⟨st2, hfin⟩
    · rw [hre] at hne
      exact absurd rfl hne
    · have hcard : (costedLE s st2 r.totalCost).card < s.rows * s.cols + 1 := by
        have := costedLE_card_le s st2 r.totalCost
        omega
      obtain ⟨hcne, hpath, hsum⟩ := collect_sum hrows hfin.startCost hfin.prevStart
        hfin.prevCost (s.rows * s.cols + 1) s.goal r.totalCost hfin.goalCost
        hfin.goalIn hcard
      have hmin := hfin.goalMin _ hpath
      have hsum2 : sumSteps s (collectPath st2.prev (s.rows * s.cols + 1) s.goal) =
          r.totalCost := le_antisymm hsum hmin
      rw [hfin.pathEq]
      unfold reconstructPath
      rw [pathCostSum_reverse, hsum2]

theorem findPath_cost_eq_pathSum_witness :
    (findPath (runOps (initialGrid 2 2) [.set 0 0 .Start, .set 1 1 .Goal])).path ≠ [] ∧
    (findPath (runOps (initialGrid 2 2) [.set 0 0 .Start, .set 1 1 .Goal])).totalCost =
      pathCostSum (runOps (initialGrid 2 2) [.set 0 0 .Start, .set 1 1 .Goal])
        (findPath (runOps (initialGrid 2 2) [.set 0 0 .Start, .set 1 1 .Goal])).path :=
  ⟨by with_unfolding_all decide,
   findPath_cost_eq_pathSum (runOps (initialGrid 2 2) [.set 0 0 .Start, .set 1 1 .Goal])
     (by decide) (by decide) (by with_unfolding_all decide)⟩

/-- Claim C6, counterexample: set start `(0,0)`, then paint that cell with
`Wall` (the tracked start is not cleared).  The search still starts there and
the returned path contains the wall cell `(0,0)`; the wall is also the very
first node pushed on the frontier. -/
theorem findPath_wall_on_path_counterexample :
    (runOps (initialGrid 3 1) [.set 0 0 .Start, .set 2 0 .Goal, .set 0 0 .Wall]).start =
      (0, 0) ∧
    (runOps (initialGrid 3 1) [.set 0 0 .Start, .set 2 0 .Goal, .set 0 0 .Wall]).goal =
      (2, 0) ∧
    (0, 0) ∈ (findPath (runOps (initialGrid 3 1)
      [.set 0 0 .Start, .set 2 0 .Goal, .set 0 0 .Wall])).path ∧
    (runOps (initialGrid 3 1) [.set 0 0 .Start, .set 2 0 .Goal, .set 0 0 .Wall]).grid 0 0 =
      .Wall := by
  refine ⟨rfl, rfl, by with_unfolding_all decide, rfl⟩

/-- Claim C6, amended: with the start in bounds, no coordinate of the path
returned by `findPath()` other than the start position is a `Wall` cell (the
start cell itself can be a wall when it was overwritten after being set, and
it is then also enqueued). -/
theorem findPath_no_wall_except_start (s : GridState)
    (hsb : s.start.1 < s.rows ∧ s.start.2 < s.cols) :
    ∀ p ∈ (findPath s).path, p ≠ s.start → s.grid p.1 p.2 ≠ .Wall := by
  intro p hp hpne
  by_cases hg : s.start.1 = 101 ∨ s.goal.1 = 101
  · unfold findPath at hp
    rw [if_pos hg] at hp
    cases hp
  · push_neg at hg
    obtain ⟨r, hr⟩ := searchLoop_total s hsb
    have hinv := inv_init s hsb
    have hfp : findPath s = r := findPath_eq_of_run hg.1 hg.2 hr
    rw [hfp] at hp
    rcases searchLoop_correct s (searchFuel s) (initSearch s) r hinv hr with
      ⟨hre, _⟩ | ⟨st2, hfin⟩
    · rw [hre] at hp
      cases hp
    · rw [hfin.pathEq] at hp
      unfold reconstructPath at hp
      rw [List.mem_reverse] at hp
      exact (collect_nonwall hfin.prevStart hfin.prevCost _ s.goal
        ⟨r.totalCost, hfin.goalCost⟩ p hp).2 hpne

theorem findPath_no_wall_except_start_witness :
    (1, 0) ∈ (findPath (runOps (initialGrid 2 1) [.set 0 0 .Start, .set 1 0 .Goal])).path ∧
    (1, 0) ≠ (runOps (initialGrid 2 1) [.set 0 0 .Start, .set 1 0 .Goal]).start ∧
    (runOps (initialGrid 2 1) [.set 0 0 .Start, .set 1 0 .Goal]).grid 1 0 ≠ .Wall :=
  ⟨by with_unfolding_all decide, by decide,
   findPath_no_wall_except_start (runOps (initialGrid 2 1) [.set 0 0 .Start, .set 1 0 .Goal])
     (by decide) (1, 0) (by with_unfolding_all decide) (by decide)⟩

end PathViz
